import Mathlib

/-!
Verification development for the runtime core of the soia TypeScript client
(`src/soia.ts`): a shallow embedding of the binary wire codec, the JSON codecs,
the struct serializer with unknown-field preservation, the `Timestamp` value
object, and the RPC method-listing branch of `Service.handleRequest`.

Modelling conventions:
* A binary buffer is a `List Nat` of byte values; encoders only ever append
  values reduced mod 256 (mirroring `DataView.setUint8` & co.), decoders read
  from the front of the list and return the unread remainder.
* JavaScript `number` values are modelled as integers (`Int`) where the source
  only ever manipulates integral values, and as `Rat`-or-NaN (`JsNum`) where
  NaN and fractional inputs are semantically relevant (`Timestamp`).
* JavaScript `bigint` is modelled as `Int`.
* Fallible operations (`throw`, out-of-bounds `DataView` reads, calling an
  undefined decode function) are modelled with `Option`, `none` meaning the
  source raises.
* Float-valued wires (240, 241) are left uninterpreted: `decodeNumber` returns
  `none` on them (no claim settled here decodes a float-valued wire into a
  number; the unused-field skipper handles wires 240/241 itself, without
  consulting `decodeNumber`, exactly as the source does).
-/

namespace Soia

/-- Little-endian byte list of length `k` holding `v % 2^(8*k)`; the byte-level
meaning of the `DataView.setUint8/16/32/64` little-endian writes in
`OutputStream`. -/
def toLE : Nat → Nat → List Nat
  | 0, _ => []
  | k + 1, v => v % 256 :: toLE k (v / 256)

/-- One `OutputStream.write*` call of width `k` bytes: two's-complement /
wrap-around conversion of the integer argument followed by a little-endian
write, as performed by `DataView.setUint*`/`setInt*`/`setBigInt64` with
`littleEndian = true`. -/
def writeLE (k : Nat) (v : Int) : List Nat := toLE k (v % ((2 : Int) ^ (8 * k))).toNat

/-- Value of a little-endian byte list, inverse of `toLE`; the byte-level
meaning of the `DataView.getUint*` little-endian reads in `InputStream`. -/
def leVal : List Nat → Nat
  | [] => 0
  | b :: t => b + 256 * leVal t

/-- Read `k` bytes little-endian from the front of the buffer; `none` when the
buffer is too short (a `DataView` read past the end throws). -/
def readLE (k : Nat) (b : List Nat) : Option (Nat × List Nat) :=
  if k ≤ b.length then some (leVal (b.take k), b.drop k) else none

/-- Reinterpret an unsigned 32-bit value as two's-complement signed
(`DataView.getInt32`). -/
def asInt32 (v : Nat) : Int :=
  if v < 2147483648 then (v : Int) else (v : Int) - 4294967296

/-- Reinterpret an unsigned 64-bit value as two's-complement signed
(`DataView.getBigInt64`). -/
def asInt64 (v : Nat) : Int :=
  if v < 9223372036854775808 then (v : Int) else (v : Int) - 18446744073709551616

/-- The `decodeNumber` function of the source: reads one wire byte and, for the
numeric wires `0..=239`, the bytes it announces.  The JS `number`/`bigint`
distinction is collapsed into `Int` (every value decoded here is integral).
Wires `240`/`241` (floats) are uninterpreted (`none`, see the module comment);
wires `242..=255` index past the end of `DECODE_NUMBER_FNS`, so the source
throws (`none`). -/
def decodeNumber : List Nat → Option (Int × List Nat)
  | [] => none
  | wire :: rest =>
    if wire < 232 then some ((wire : Int), rest)
    else if wire = 232 then (readLE 2 rest).map fun p => ((p.1 : Int), p.2)
    else if wire = 233 then (readLE 4 rest).map fun p => ((p.1 : Int), p.2)
    else if wire = 234 then (readLE 8 rest).map fun p => ((p.1 : Int), p.2)
    else if wire = 235 then (readLE 1 rest).map fun p => ((p.1 : Int) - 256, p.2)
    else if wire = 236 then (readLE 2 rest).map fun p => ((p.1 : Int) - 65536, p.2)
    else if wire = 237 then (readLE 4 rest).map fun p => (asInt32 p.1, p.2)
    else if wire = 238 ∨ wire = 239 then (readLE 8 rest).map fun p => (asInt64 p.1, p.2)
    else none

/-- The `encodeUint32` helper of the source: shortest of the `0..=231`,
`232`+u16, `233`+u32 forms; the source throws (`none`) at `2^32` and above. -/
def encodeUint32 (length : Nat) : Option (List Nat) :=
  if length < 232 then some (toLE 1 length)
  else if length < 65536 then some (232 :: toLE 2 length)
  else if length < 4294967296 then some (233 :: toLE 4 length)
  else none

/-- JS `ToInt32` (`n | 0`) on an integral value: wrap into two's-complement
32-bit range.  (The intermediate `Number(bigint)` conversion of the source can
round values beyond 2^53; no claim settled here decodes such a value through
the int32 serializer, so that rounding step is not modelled.) -/
def jsToInt32 (n : Int) : Int := asInt32 ((n % 4294967296).toNat)

/-- `Int32Serializer.encode`, branch for branch. -/
def int32Encode (input : Int) : List Nat :=
  if input < 0 then
    if -256 ≤ input then 235 :: writeLE 1 (input + 256)
    else if -65536 ≤ input then 236 :: writeLE 2 (input + 65536)
    else 237 :: writeLE 4 (if -2147483648 ≤ input then input else -2147483648)
  else if input < 232 then writeLE 1 input
  else if input < 65536 then 232 :: writeLE 2 input
  else 233 :: writeLE 4 (if input ≤ 2147483647 then input else 2147483647)

/-- `Int32Serializer.decode`: `Number(decodeNumber(stream)) | 0`. -/
def int32Decode (b : List Nat) : Option (Int × List Nat) :=
  (decodeNumber b).map fun p => (jsToInt32 p.1, p.2)

def minInt64 : Int := -9223372036854775808
def maxInt64 : Int := 9223372036854775807
def maxUint64 : Int := 18446744073709551615

/-- `Int64Serializer.encode`: zero is the single byte `0`; values that fit in
32 bits reuse the int32 encoding; everything else is `238` + i64, clamped to
the int64 range. -/
def int64Encode (input : Int) : List Nat :=
  if input = 0 then writeLE 1 0
  else if -2147483648 ≤ input ∧ input ≤ 2147483647 then int32Encode input
  else 238 :: writeLE 8 (if input < minInt64 then minInt64
    else if input < maxInt64 then input else maxInt64)

/-- `decodeBigInt`: `decodeNumber`, with `Math.round` a no-op on the integral
values modelled here. -/
def decodeBigInt (b : List Nat) : Option (Int × List Nat) := decodeNumber b

/-- `Uint64Serializer.encode`: shortest unsigned form, clamped to
`[0, 2^64 - 1]` (negative inputs fall into the first branch and are written as
the single byte `0`). -/
def uint64Encode (input : Int) : List Nat :=
  if input < 232 then writeLE 1 (if input ≤ 0 then 0 else input)
  else if input < 4294967296 then
    if input < 65536 then 232 :: writeLE 2 input else 233 :: writeLE 4 input
  else 234 :: writeLE 8 (if input ≤ maxUint64 then input else maxUint64)

/-- Little-endian base-10 digits, with fuel for structural recursion (fuel `m`
is always enough since the argument shrinks at every step). -/
def natDigitsAux : Nat → Nat → List Nat
  | 0, _ => []
  | _ + 1, 0 => []
  | fuel + 1, m + 1 => (m + 1) % 10 :: natDigitsAux fuel ((m + 1) / 10)

/-- Little-endian base-10 digits of a natural number (empty for 0). -/
def natDigits (m : Nat) : List Nat := natDigitsAux m m

/-- Decimal digit string of a natural number, the model of JS
`BigInt.prototype.toString` for non-negative values. -/
def natDecimalStr (m : Nat) : String :=
  if m = 0 then "0" else ((natDigits m).reverse.map Nat.digitChar).asString

/-- Decimal string of an integer, the model of JS `BigInt.prototype.toString`. -/
def jsIntToString (n : Int) : String :=
  if n < 0 then "-" ++ natDecimalStr n.natAbs else natDecimalStr n.natAbs

/-- JSON values (the `Json` type of the source). JSON numbers are modelled as
rationals. -/
inductive Json where
  | null
  | bool (b : Bool)
  | num (q : ℚ)
  | str (s : String)
  | arr (elems : List Json)
  | obj (members : List (String × Json))

/-- JS truthiness (`!!json`) of a JSON value. -/
def Json.truthy : Json → Bool
  | .null => false
  | .bool b => b
  | .num q => decide (q ≠ 0)
  | .str s => decide (s ≠ "")
  | .arr _ => true
  | .obj _ => true

/-- JS strict equality of a JSON value with the string literal `"0"`. -/
def jsonIsStrZero : Json → Bool
  | .str s => s == "0"
  | _ => false

/-- `BoolSerializer.fromJson`: `!!json && json !== "0"`. -/
def boolFromJson (json : Json) : Bool := json.truthy && !jsonIsStrZero json

/-- `BoolSerializer.encode`: one byte, `1` or `0`. -/
def boolEncode (input : Bool) : List Nat := writeLE 1 (if input then 1 else 0)

/-- `BoolSerializer.decode`: `!!decodeNumber(stream)`. -/
def boolDecode (b : List Nat) : Option (Bool × List Nat) :=
  (decodeNumber b).map fun p => (decide (p.1 ≠ 0), p.2)

/-- `Int64Serializer.toJson`: a JSON number within the safe-integer range
`±(2^53 - 1)`, a decimal string otherwise, clamped to the int64 range (with the
source's ≤ 18-character shortcut). -/
def int64ToJson (input : Int) : Json :=
  if -9007199254740991 ≤ input ∧ input ≤ 9007199254740991 then .num (input : ℚ)
  else
    let s := jsIntToString input
    if s.length ≤ 18 then .str s
    else if input < minInt64 then .str (jsIntToString minInt64)
    else if input < maxInt64 then .str s
    else .str (jsIntToString maxInt64)

/-- `Uint64Serializer.toJson`: non-positive values become the JSON number `0`;
safe integers stay numbers; larger values become decimal strings clamped to
`2^64 - 1`. -/
def uint64ToJson (input : Int) : Json :=
  if input ≤ 9007199254740991 then (if input ≤ 0 then .num 0 else .num (input : ℚ))
  else if maxUint64 < input then .str (jsIntToString maxUint64)
  else .str (jsIntToString input)

/-- A JS `number` in the contexts where NaN matters: either NaN or a (finite)
rational value.  (Infinities do not arise in the claims settled here.) -/
inductive JsNum where
  | nan
  | val (q : ℚ)

/-- JS `Math.round`: round half toward positive infinity. -/
def jsRound (q : ℚ) : Int := ⌊q + 1 / 2⌋

/-- The `Timestamp` value object; after construction through the public API its
millisecond count is always integral. -/
structure Timestamp where
  unixMillis : Int
deriving DecidableEq

def Timestamp.MIN : Timestamp := ⟨-8640000000000000⟩
def Timestamp.MAX : Timestamp := ⟨8640000000000000⟩
def Timestamp.UNIX_EPOCH : Timestamp := ⟨0⟩

/-- `Timestamp.fromUnixMillis`.  The source tests, in order:
`unixMillis <= MIN` (→ MIN), `unixMillis < MAX` (→ `Math.round`),
`Number.isNaN(unixMillis)` (→ throw), else → MAX.  For a NaN argument the two
comparisons are false and the isNaN branch throws, which the `.nan` case
compiles directly. -/
def Timestamp.fromUnixMillis : JsNum → Option Timestamp
  | .nan => none
  | .val q =>
    if q ≤ (-8640000000000000 : ℚ) then some Timestamp.MIN
    else if q < (8640000000000000 : ℚ) then some ⟨jsRound q⟩
    else some Timestamp.MAX

/-- `TimestampSerializer.encode`: epoch is the single byte `0`, otherwise
`239` + i64 milliseconds. -/
def timestampEncode (input : Timestamp) : List Nat :=
  if input.unixMillis = 0 then writeLE 1 0 else 239 :: writeLE 8 input.unixMillis

/-- `TimestampSerializer.decode`: `Timestamp.fromUnixMillis(Number(decodeNumber(stream)))`. -/
def timestampDecode (b : List Nat) : Option (Timestamp × List Nat) :=
  (decodeNumber b).bind fun p =>
    (Timestamp.fromUnixMillis (.val (p.1 : ℚ))).map fun t => (t, p.2)

/-- JS truncation toward zero of a rational (the integral part used by
`ToInt32`). -/
def jsTrunc (q : ℚ) : Int := if q < 0 then ⌈q⌉ else ⌊q⌋

/-- JS unary-plus coercion of a JSON value to a number, on the inputs the
settled claims exercise.  String-to-number parsing and array/object coercions
are not modelled (`none`); no claim feeds those shapes to a numeric
`fromJson`. -/
def jsToNumber : Json → Option ℚ
  | .null => some 0
  | .bool b => some (if b then 1 else 0)
  | .num q => some q
  | .str _ => none
  | .arr _ => none
  | .obj _ => none

/-- `Int32Serializer.fromJson`: `+(json) | 0`. -/
def int32FromJson (json : Json) : Option Int :=
  (jsToNumber json).map fun q => jsToInt32 (jsTrunc q)

/-- `AbstractBigIntSerializer.fromJson` (shared by int64 and uint64): `BigInt`
succeeds on integral numbers; on a fractional number it throws and the catch
block applies `Math.round`.  The string path (`BigInt(string)`) is not
modelled (`none`); no settled claim parses a numeric string. -/
def bigintFromJson : Json → Option Int
  | .num q => some (if q.den = 1 then q.num else jsRound q)
  | _ => none

/-- `TimestampSerializer.fromJson` on the shapes the settled claims exercise:
a number goes through `fromUnixMillis`; the readable-object shape reads its
`unix_millis` number.  Numeric strings are not modelled (`none`). -/
def timestampFromJson : Json → Option Timestamp
  | .num q => Timestamp.fromUnixMillis (.val q)
  | .obj members =>
    (members.lookup "unix_millis").bind fun v =>
      match v with
      | .num q => Timestamp.fromUnixMillis (.val q)
      | _ => none
  | _ => none

/-- `ByteStringSerializer.encode`: empty is `244`, otherwise `245` + byte
length (via `encodeUint32`) + the bytes verbatim. -/
def bytesEncode (input : List Nat) : Option (List Nat) :=
  if input.length ≠ 0 then
    (encodeUint32 input.length).map fun lenBytes => 245 :: (lenBytes ++ input)
  else some [244]

/-- `ByteStringSerializer.decode`: wire `0`/`244` is empty; otherwise read a
length and slice.  `ByteString.sliceOf` clamps at the end of the buffer, which
`List.take`/`List.drop` mirror.  (A negative decoded length, only producible by
malformed input no claim exercises, is treated as 0.) -/
def bytesDecode (b : List Nat) : Option (List Nat × List Nat) :=
  match b with
  | [] => none
  | wire :: rest =>
    if wire = 0 ∨ wire = 244 then some ([], rest)
    else (decodeNumber rest).map fun p =>
      ((p.2.take p.1.toNat, p.2.drop p.1.toNat) : List Nat × List Nat)

/-- `ByteStringSerializer.fromJson` on the shapes the settled claims exercise:
`json === 0` yields the empty byte string.  The base64/base16 string paths are
not modelled (`none`); no settled claim decodes them. -/
def bytesFromJson : Json → Option (List Nat)
  | .num q => if q = 0 then some [] else none
  | _ => none

/-- `OptionalSerializerImpl.encode`: `null` is wire `255`, otherwise delegate. -/
def optionalEncode (encOther : α → Option (List Nat)) : Option α → Option (List Nat)
  | none => some [255]
  | some v => encOther v

/-- `OptionalSerializerImpl.decode`: peek one byte; `255` is `null`, anything
else delegates to the wrapped serializer on the *unconsumed* buffer. -/
def optionalDecode (decOther : List Nat → Option (α × List Nat)) (b : List Nat) :
    Option (Option α × List Nat) :=
  match b with
  | [] => none
  | wire :: rest =>
    if wire = 255 then some (none, rest)
    else (decOther (wire :: rest)).map fun p => (some p.1, p.2)

/-- `OptionalSerializerImpl.fromJson`: `json !== null ? delegate : null`. -/
def optionalFromJson (fromJsonOther : Json → Option α) : Json → Option (Option α)
  | .null => some none
  | j => (fromJsonOther j).map some

/-- The `if (length <= 3) 246 + length else 250, encodeUint32(length)` header
logic, written inline in both `ArraySerializerImpl.encode` and
`StructSerializerImpl.encode`. -/
def lengthHeader (n : Nat) : Option (List Nat) :=
  if n ≤ 3 then some [246 + n] else (encodeUint32 n).map (250 :: ·)

/-- Encode every item of a list in order, failing if any item fails. -/
def encodeItems (encItem : α → Option (List Nat)) : List α → Option (List Nat)
  | [] => some []
  | v :: t => (encItem v).bind fun e => (encodeItems encItem t).map (e ++ ·)

/-- `ArraySerializerImpl.encode`: length header followed by the item
encodings. -/
def arrayEncode (encItem : α → Option (List Nat)) (input : List α) : Option (List Nat) :=
  (lengthHeader input.length).bind fun h =>
    (encodeItems encItem input).map (h ++ ·)

/-- Decode `n` consecutive items. -/
def decodeItems (decItem : List Nat → Option (α × List Nat)) :
    Nat → List Nat → Option (List α × List Nat)
  | 0, b => some ([], b)
  | n + 1, b =>
    (decItem b).bind fun p =>
      (decodeItems decItem n p.2).map fun q => (p.1 :: q.1, q.2)

/-- `ArraySerializerImpl.decode`: wire `0`/`246` is the empty array; otherwise
the length is `decodeNumber` (after wire `250`) or `wire - 246`, and that many
items follow.  A negative length (`new Array(-n)`) throws in the source
(`none`). -/
def arrayDecode (decItem : List Nat → Option (α × List Nat)) (b : List Nat) :
    Option (List α × List Nat) :=
  match b with
  | [] => none
  | wire :: rest =>
    if wire = 0 ∨ wire = 246 then some ([], rest)
    else
      (if wire = 250 then decodeNumber rest else some ((wire : Int) - 246, rest)).bind
        fun p => if p.1 < 0 then none else decodeItems decItem p.1.toNat p.2

/-- `ArraySerializerImpl.fromJson`: `json === 0` is the shared empty array;
a JSON list maps the items; any other shape throws (`none`). -/
def arrayFromJson (fromJsonItem : Json → Option α) : Json → Option (List α)
  | .num q => if q = 0 then some [] else none
  | .arr elems =>
    elems.foldr (fun j acc =>
      (fromJsonItem j).bind fun v => acc.map (v :: ·)) (some [])
  | _ => none

/-!
The unused-field skipper (`decodeUnused`).  The source recurses without bound;
the model adds a fuel parameter.  Fuel `b.length` is always sufficient: every
nesting level consumes at least the wire byte before recursing, so whenever a
nested call receives a non-empty buffer its fuel is still positive, and on an
empty buffer both the source (`readUint8` past the end) and the model fail.
-/

/-- A `for` loop skipping `n` consecutive wire elements with the given
single-element skipper. -/
def skipManyWith (f : List Nat → Option (List Nat)) : Nat → List Nat → Option (List Nat)
  | 0, b => some b
  | n + 1, b => (f b).bind (skipManyWith f n)

/-- One step of `decodeUnused`, with fuel (structural recursion on the fuel).
Case numbers in the source switch are `wire - 232`.  A negative decoded length
in the string/bytes/array cases (only producible by malformed input no claim
exercises; the source would move the cursor backwards or loop zero times) is
treated as 0 via `Int.toNat`. -/
def decodeUnusedF : Nat → List Nat → Option (List Nat)
  | 0, _ => none
  | _ + 1, [] => none
  | fuel + 1, wire :: rest =>
    if wire < 232 then some rest
    else if wire = 232 ∨ wire = 236 then some (rest.drop 2)
    else if wire = 233 ∨ wire = 237 ∨ wire = 240 then some (rest.drop 4)
    else if wire = 234 ∨ wire = 238 ∨ wire = 239 ∨ wire = 241 then some (rest.drop 8)
    else if wire = 235 then some (rest.drop 1)
    else if wire = 243 ∨ wire = 245 then
      (decodeNumber rest).map fun p => p.2.drop p.1.toNat
    else if wire = 247 ∨ wire = 251 ∨ wire = 252 ∨ wire = 253 ∨ wire = 254 then
      decodeUnusedF fuel rest
    else if wire = 248 then
      (decodeUnusedF fuel rest).bind fun r => decodeUnusedF fuel r
    else if wire = 249 then
      (decodeUnusedF fuel rest).bind fun r =>
        (decodeUnusedF fuel r).bind fun r2 => decodeUnusedF fuel r2
    else if wire = 250 then
      (decodeNumber rest).bind fun p => skipManyWith (decodeUnusedF fuel) p.1.toNat p.2
    else some rest

/-- `decodeUnused` of the source (see the fuel note above). -/
def decodeUnused (b : List Nat) : Option (List Nat) := decodeUnusedF b.length b

/-- The skip loop over trailing unrecognized slots in
`StructSerializerImpl.decode`. -/
def skipElems (n : Nat) (b : List Nat) : Option (List Nat) :=
  skipManyWith (decodeUnusedF b.length) n b

/-!
The struct serializer (`StructSerializerImpl`), generic over the field-value
type `V` and per-field codecs.  A slot is `some codec` for an active field,
`none` for a removed or never-assigned field number.  The JSON variant of an
unrecognized-fields payload is only consumed by `toJson`, which no settled
claim exercises, so the payload model carries the binary variant and a marker
for the JSON variant.
-/

/-- The binary-level interface of one field's serializer, as
`StructSerializerImpl` consumes it. -/
structure Codec (V : Type) where
  dflt : V
  isDefault : V → Bool
  encode : V → Option (List Nat)
  decode : List Nat → Option (V × List Nat)

/-- The `UnrecognizedFields` payload attached under the `"^"` key: the owning
serializer's token, the total number of slots observed, and the raw byte
suffix (when the payload came from binary data). -/
structure UnrecognizedFields where
  token : Nat
  totalSlots : Nat
  bytesPayload : Option (List Nat)

/-- A struct instance: a value per field number, plus the optional
unrecognized-fields payload. -/
structure StructValue (V : Type) where
  fieldVal : Nat → V
  unrecognized : Option UnrecognizedFields

/-- A struct serializer after `init`: its token, its slot array and its
recognized-slot count (`max(max field number, max removed number) + 1`). -/
structure StructSerializer (V : Type) where
  token : Nat
  slots : Nat → Option (Codec V)
  recognizedSlots : Nat

/-- Default value stored in the initializer template for slot `i`. -/
def dfltAt [Inhabited V] (S : StructSerializer V) (i : Nat) : V :=
  match S.slots i with
  | some c => c.dflt
  | none => default

/-- The frozen default instance of the struct. -/
def defaultStruct [Inhabited V] (S : StructSerializer V) : StructValue V :=
  ⟨fun i => dfltAt S i, none⟩

/-- The scan of `getArrayLength` over the fields sorted by descending number:
the first (highest-numbered) non-default field plus one, or 0. -/
def getArrayLengthAux (S : StructSerializer V) (x : Nat → V) : Nat → Nat
  | 0 => 0
  | n + 1 =>
    match S.slots n with
    | some c => if c.isDefault (x n) then getArrayLengthAux S x n else n + 1
    | none => getArrayLengthAux S x n

/-- `StructSerializerImpl.getArrayLength`. -/
def getArrayLength (S : StructSerializer V) (x : StructValue V) : Nat :=
  getArrayLengthAux S x.fieldVal S.recognizedSlots

/-- The `(totalSlots, recognizedSlots, unrecognizedBytes)` triple computed at
the top of `StructSerializerImpl.encode`: the preserved payload is used only
when it is a bytes payload whose token matches this serializer's token. -/
def structEncodeInfo (S : StructSerializer V) (x : StructValue V) :
    Nat × Nat × List Nat :=
  match x.unrecognized with
  | some u =>
    match u.bytesPayload with
    | some payload =>
      if u.token = S.token then (u.totalSlots, S.recognizedSlots, payload)
      else (getArrayLength S x, getArrayLength S x, [])
    | none => (getArrayLength S x, getArrayLength S x, [])
  | none => (getArrayLength S x, getArrayLength S x, [])

/-- The slot-writing loop of `StructSerializerImpl.encode`, from slot `i` for
`count` slots: an active field delegates to its codec, a missing slot writes
the single byte `0`. -/
def encodeSlots (S : StructSerializer V) (x : Nat → V) : Nat → Nat → Option (List Nat)
  | _, 0 => some []
  | i, count + 1 =>
    (match S.slots i with
     | some c => c.encode (x i)
     | none => some [0]).bind fun e =>
      (encodeSlots S x (i + 1) count).map (e ++ ·)

/-- `StructSerializerImpl.encode`. -/
def structEncode (S : StructSerializer V) (x : StructValue V) : Option (List Nat) :=
  let info := structEncodeInfo S x
  (lengthHeader info.1).bind fun h =>
    (encodeSlots S x.fieldVal 0 info.2.1).map fun body => h ++ body ++ info.2.2

/-- Pointwise function update (the initializer assignment
`initializer[field.property] = ...`). -/
def updateAt (x : Nat → V) (i : Nat) (v : V) : Nat → V :=
  fun j => if j = i then v else x j

/-- The first decode loop of `StructSerializerImpl.decode`, from slot `i` for
`count` slots: an active field delegates to its codec, a removed slot is
skipped with `decodeUnused`. -/
def decodeSlots (S : StructSerializer V) :
    Nat → Nat → (Nat → V) → List Nat → Option ((Nat → V) × List Nat)
  | 0, _, x, b => some (x, b)
  | count + 1, i, x, b =>
    match S.slots i with
    | some c => (c.decode b).bind fun p => decodeSlots S count (i + 1) (updateAt x i p.1) p.2
    | none => (decodeUnused b).bind fun r => decodeSlots S count (i + 1) x r

/-- `StructSerializerImpl.decode`.  Wire `0`/`246` is the default instance.
Otherwise the encoded slot count is `decodeNumber` (after wire `250`) or
`wire - 246` (as in the source, a JS number that can be negative, in which case
both loops are empty); at most `recognizedSlots` slots are decoded through the
schema, and any excess is skipped and — in keep mode — captured as the raw
byte slice together with the observed total. -/
def structDecode [Inhabited V] (S : StructSerializer V) (keep : Bool) (b : List Nat) :
    Option (StructValue V × List Nat) :=
  match b with
  | [] => none
  | wire :: rest =>
    if wire = 0 ∨ wire = 246 then some (defaultStruct S, rest)
    else
      (if wire = 250 then decodeNumber rest else some ((wire : Int) - 246, rest)).bind
        fun p =>
          (decodeSlots S (min p.1 (S.recognizedSlots : Int)).toNat 0
              (fun i => dfltAt S i) p.2).bind fun q =>
            if (S.recognizedSlots : Int) < p.1 then
              (skipElems (p.1 - (S.recognizedSlots : Int)).toNat q.2).map fun r3 =>
                (⟨q.1,
                  if keep then
                    some ⟨S.token, p.1.toNat, some (q.2.take (q.2.length - r3.length))⟩
                  else none⟩,
                 r3)
            else some (⟨q.1, none⟩, q.2)

/-- `StructSerializerImpl.fromJson`, falsy branch: any falsy JSON value (in
particular the number `0`) yields the default instance.  The dense-array and
readable-object branches are not modelled (`none`); no settled claim exercises
them. -/
def structFromJson [Inhabited V] (S : StructSerializer V) (json : Json) :
    Option (StructValue V) :=
  if json.truthy = false then some (defaultStruct S) else none

/-- The `Codec` view of the int32 serializer (`isDefault` is the inherited
`!input`). -/
def int32Codec : Codec Int :=
  ⟨0, fun v => decide (v = 0), fun v => some (int32Encode v), int32Decode⟩

/-!
Binary envelope (`AbstractSerializer.toBytes` / `fromBytes`).
-/

/-- The UTF-8 bytes of the ASCII magic string `"soia"` written by `toBytes`. -/
def soiaMagic : List Nat := [115, 111, 105, 97]

/-- `toBytes` for a total encoder: the magic followed by the encoding. -/
def toBytesT (enc : α → List Nat) (x : α) : List Nat := soiaMagic ++ enc x

/-- `toBytes` for a fallible encoder. -/
def toBytesO (enc : α → Option (List Nat)) (x : α) : Option (List Nat) :=
  (enc x).map (soiaMagic ++ ·)

/-- `fromBytes`: set the cursor to 4 (skipping the magic unexamined) and
decode. -/
def fromBytesW (dec : List Nat → Option (α × List Nat)) (b : List Nat) : Option α :=
  (dec (b.drop 4)).map (·.1)

/-!
The RPC method-listing branch of `Service.handleRequest` (bodies `""` and
`"list"`).  Methods are listed with the JSON produced by the source, including
the value stored under the `"number"` key.  JSON stringification and the other
request branches are not modelled; the listing is compared at the JSON level.
-/

/-- A registered method as the listing consumes it: its name, its number, and
the `asJson()` type descriptors of its request and response serializers. -/
structure MethodEntry where
  name : String
  number : Int
  requestDescriptor : Json
  responseDescriptor : Json

/-- A `Service` with its registered methods (the values of `methodImpls`). -/
structure ServiceModel where
  methods : List MethodEntry

/-- One element of the `methods` array built by `handleRequest`: note that the
source assigns `methodImpl.method.name` to *both* the `method` and the
`number` keys. -/
def methodListEntry (m : MethodEntry) : Json :=
  .obj [("method", .str m.name), ("number", .str m.name),
        ("request", m.requestDescriptor), ("response", m.responseDescriptor)]

/-- The JSON document returned for a `""`/`"list"` body. -/
def methodListJson (s : ServiceModel) : Json :=
  .obj [("methods", .arr (s.methods.map methodListEntry))]

/-- Response classes of `RawResponse`. -/
inductive RawResponseType where
  | okJson
  | okHtml
  | badRequest
  | serverError
deriving DecidableEq

/-- `Service.handleRequest` restricted to the method-listing branch: a body
equal to `""` or `"list"` returns the method-listing JSON with the `ok-json`
response type (HTTP 200); other bodies fall through to branches not modelled
here (`none`). -/
def handleRequestList (s : ServiceModel) (reqBody : String) :
    Option (Json × RawResponseType) :=
  if reqBody = "" ∨ reqBody = "list" then some (methodListJson s, .okJson)
  else none

/-- Modelled from the spec (amended): the array/struct length-header table
with `246 + N` for `N ≤ 3` and `250` followed by `N` for `N ≥ 4` — i.e. `246`
for 0 slots, `247` for 1, `248` for 2, `249` for 3. -/
def specLengthHeader (n : Nat) : Option (List Nat) :=
  if n = 0 then some [246]
  else if n = 1 then some [247]
  else if n = 2 then some [248]
  else if n = 3 then some [249]
  else (encodeUint32 n).map (250 :: ·)

/-- `OptionalSerializerImpl.defaultValue` (`null`). -/
def optionalDefault : Option α := none

/-- Example instance: a struct with a single `int32` field numbered 0 and no
removed numbers (`recognizedSlots = 1`). -/
def exampleStruct : StructSerializer Int :=
  ⟨0, fun i => if i = 0 then some int32Codec else none, 1⟩

/-- Example instance: a struct with a single `int32` field numbered 0 and the
removed number 1 (`recognizedSlots = 2`). -/
def exampleRemovedStruct : StructSerializer Int :=
  ⟨0, fun i => if i = 0 then some int32Codec else none, 2⟩

/-- The item encoder of `array<int32>`. -/
def int32EncodeO (v : Int) : Option (List Nat) := some (int32Encode v)

/-- Concatenation of the per-slot byte blocks `blocks i`, `blocks (i+1)`, ...,
for `count` slots. -/
def joinRange (blocks : Nat → List Nat) (i : Nat) : Nat → List Nat
  | 0 => []
  | count + 1 => blocks i ++ joinRange blocks (i + 1) count

/-- A byte block that the unused-field skipper consumes exactly, regardless of
what follows, given at least its length in fuel.  This is the shape of every
complete wire element a soia encoder can emit. -/
def ConsumesExactly (u : List Nat) : Prop :=
  u ≠ [] ∧ ∀ fuel rest, u.length ≤ fuel → decodeUnusedF fuel (u ++ rest) = some rest

/-! ### Byte-level lemmas -/

theorem toLE_length (k v : Nat) : (toLE k v).length = k := by
  induction k generalizing v with
  | zero => rfl
  | succ k ih => simp [toLE, ih]

theorem leVal_toLE (k v : Nat) : leVal (toLE k v) = v % 2 ^ (8 * k) := by
  induction k generalizing v with
  | zero => simp [toLE, leVal, Nat.mod_one]
  | succ k ih =>
    have h : 2 ^ (8 * (k + 1)) = 256 * 2 ^ (8 * k) := by ring
    rw [toLE, leVal, ih, h, Nat.mod_mul]

theorem readLE_toLE (k v : Nat) (rest : List Nat) :
    readLE k (toLE k v ++ rest) = some (v % 2 ^ (8 * k), rest) := by
  have hlen : (toLE k v).length = k := toLE_length k v
  rw [readLE, if_pos]
  · rw [List.take_left' hlen, List.drop_left' hlen, leVal_toLE]
  · rw [List.length_append, hlen]; omega

theorem writeLE_toLE (k : Nat) (v : Int) :
    writeLE k v = toLE k ((v % ((2 : Int) ^ (8 * k))).toNat) := rfl

/-! ### decodeNumber on each canonical wire -/

theorem dn_small (b : Nat) (h : b < 232) (rest : List Nat) :
    decodeNumber (b :: rest) = some ((b : Int), rest) := by
  simp [decodeNumber, h]

theorem dn_u16 (v : Nat) (rest : List Nat) :
    decodeNumber (232 :: (toLE 2 v ++ rest)) = some (((v % 65536 : Nat) : Int), rest) := by
  have h := readLE_toLE 2 v rest
  norm_num at h
  simp [decodeNumber, h]

theorem dn_u32 (v : Nat) (rest : List Nat) :
    decodeNumber (233 :: (toLE 4 v ++ rest)) = some (((v % 4294967296 : Nat) : Int), rest) := by
  have h := readLE_toLE 4 v rest
  norm_num at h
  simp [decodeNumber, h]

theorem dn_u64 (v : Nat) (rest : List Nat) :
    decodeNumber (234 :: (toLE 8 v ++ rest)) =
      some (((v % 18446744073709551616 : Nat) : Int), rest) := by
  have h := readLE_toLE 8 v rest
  norm_num at h
  simp [decodeNumber, h]

theorem dn_m256 (v : Nat) (rest : List Nat) :
    decodeNumber (235 :: (toLE 1 v ++ rest)) =
      some (((v % 256 : Nat) : Int) - 256, rest) := by
  have h := readLE_toLE 1 v rest
  norm_num at h
  simp [decodeNumber, h]

theorem dn_m65536 (v : Nat) (rest : List Nat) :
    decodeNumber (236 :: (toLE 2 v ++ rest)) =
      some (((v % 65536 : Nat) : Int) - 65536, rest) := by
  have h := readLE_toLE 2 v rest
  norm_num at h
  simp [decodeNumber, h]

theorem dn_i32 (v : Nat) (rest : List Nat) :
    decodeNumber (237 :: (toLE 4 v ++ rest)) = some (asInt32 (v % 4294967296), rest) := by
  have h := readLE_toLE 4 v rest
  norm_num at h
  simp [decodeNumber, h]

theorem dn_i64 (w : Nat) (hw : w = 238 ∨ w = 239) (v : Nat) (rest : List Nat) :
    decodeNumber (w :: (toLE 8 v ++ rest)) =
      some (asInt64 (v % 18446744073709551616), rest) := by
  have h := readLE_toLE 8 v rest
  norm_num at h
  rcases hw with hw | hw <;> subst hw <;> simp [decodeNumber, h]

/-! ### int32 -/

theorem jsToInt32_self (n : Int) (h1 : -2147483648 ≤ n) (h2 : n ≤ 2147483647) :
    jsToInt32 n = n := by
  unfold jsToInt32 asInt32
  split <;> omega

theorem pow8One : ((2 : Int) ^ (8 * 1)) = 256 := by norm_num

theorem pow8Two : ((2 : Int) ^ (8 * 2)) = 65536 := by norm_num

theorem pow8Four : ((2 : Int) ^ (8 * 4)) = 4294967296 := by norm_num

theorem pow8Eight : ((2 : Int) ^ (8 * 8)) = 18446744073709551616 := by norm_num

theorem int32Encode_decodeNumber (n : Int) (h1 : -2147483648 ≤ n)
    (h2 : n ≤ 2147483647) (rest : List Nat) :
    decodeNumber (int32Encode n ++ rest) = some (n, rest) := by
  unfold int32Encode
  by_cases hn : n < 0
  · rw [if_pos hn]
    by_cases h256 : -256 ≤ n
    · rw [if_pos h256, writeLE_toLE, pow8One, List.cons_append, dn_m256]
      simp only [Option.some.injEq, Prod.mk.injEq]
      refine ⟨?_, trivial⟩
      omega
    · rw [if_neg h256]
      by_cases h65536 : -65536 ≤ n
      · rw [if_pos h65536, writeLE_toLE, pow8Two, List.cons_append, dn_m65536]
        simp only [Option.some.injEq, Prod.mk.injEq]
        refine ⟨?_, trivial⟩
        omega
      · rw [if_neg h65536, if_pos h1, writeLE_toLE, pow8Four, List.cons_append, dn_i32]
        simp only [Option.some.injEq, Prod.mk.injEq]
        refine ⟨?_, trivial⟩
        unfold asInt32
        split <;> omega
  · rw [if_neg hn]
    by_cases h232 : n < 232
    · rw [if_pos h232, writeLE_toLE, pow8One]
      have hcons : toLE 1 (n % 256).toNat = [(n % 256).toNat % 256] := rfl
      rw [hcons, List.cons_append, dn_small ((n % 256).toNat % 256) (by omega)]
      simp only [Option.some.injEq, Prod.mk.injEq, List.nil_append]
      refine ⟨?_, trivial⟩
      omega
    · rw [if_neg h232]
      by_cases h65536 : n < 65536
      · rw [if_pos h65536, writeLE_toLE, pow8Two, List.cons_append, dn_u16]
        simp only [Option.some.injEq, Prod.mk.injEq]
        refine ⟨?_, trivial⟩
        omega
      · rw [if_neg h65536, if_pos h2, writeLE_toLE, pow8Four, List.cons_append, dn_u32]
        simp only [Option.some.injEq, Prod.mk.injEq]
        refine ⟨?_, trivial⟩
        omega

theorem int32_roundtrip (n : Int) (h1 : -2147483648 ≤ n) (h2 : n ≤ 2147483647)
    (rest : List Nat) : int32Decode (int32Encode n ++ rest) = some (n, rest) := by
  rw [int32Decode, int32Encode_decodeNumber n h1 h2, Option.map_some']
  rw [jsToInt32_self n h1 h2]

/-! ### int64, uint64, timestamp, bool, bytes roundtrips -/

theorem int64_roundtrip (n : Int) (h1 : minInt64 ≤ n) (h2 : n ≤ maxInt64)
    (rest : List Nat) : decodeBigInt (int64Encode n ++ rest) = some (n, rest) := by
  rw [decodeBigInt, int64Encode]
  by_cases h0 : n = 0
  · subst h0
    have hcons : writeLE 1 0 = [0] := rfl
    rw [if_pos rfl, hcons, List.cons_append, dn_small 0 (by omega)]
    norm_num
  · rw [if_neg h0]
    by_cases h32 : -2147483648 ≤ n ∧ n ≤ 2147483647
    · rw [if_pos h32]
      exact int32Encode_decodeNumber n h32.1 h32.2 rest
    · rw [if_neg h32]
      have hclamp : (if n < minInt64 then minInt64 else if n < maxInt64 then n else maxInt64) = n := by
        rw [minInt64, maxInt64] at *
        split
        · omega
        · split
          · rfl
          · omega
      rw [hclamp, writeLE_toLE, pow8Eight, List.cons_append, dn_i64 238 (Or.inl rfl)]
      simp only [Option.some.injEq, Prod.mk.injEq]
      refine ⟨?_, trivial⟩
      rw [minInt64, maxInt64] at *
      unfold asInt64
      split <;> omega

theorem uint64_roundtrip (n : Int) (h1 : 0 ≤ n) (h2 : n ≤ maxUint64)
    (rest : List Nat) : decodeBigInt (uint64Encode n ++ rest) = some (n, rest) := by
  rw [decodeBigInt, uint64Encode, maxUint64] at *
  by_cases h232 : n < 232
  · rw [if_pos h232, writeLE_toLE, pow8One]
    have hv : (if n ≤ 0 then 0 else n) % 256 = n := by omega
    rw [hv]
    have hcons : toLE 1 n.toNat = [n.toNat % 256] := rfl
    rw [hcons, List.cons_append, dn_small (n.toNat % 256) (by omega)]
    simp only [Option.some.injEq, Prod.mk.injEq, List.nil_append]
    exact ⟨by omega, trivial⟩
  · rw [if_neg h232]
    by_cases h4 : n < 4294967296
    · rw [if_pos h4]
      by_cases h65536 : n < 65536
      · rw [if_pos h65536, writeLE_toLE, pow8Two, List.cons_append, dn_u16]
        simp only [Option.some.injEq, Prod.mk.injEq]
        refine ⟨?_, trivial⟩
        omega
      · rw [if_neg h65536, writeLE_toLE, pow8Four, List.cons_append, dn_u32]
        simp only [Option.some.injEq, Prod.mk.injEq]
        refine ⟨?_, trivial⟩
        omega
    · rw [if_neg h4]
      have hclamp : (if n ≤ (18446744073709551615 : Int) then n else 18446744073709551615) = n := by
        omega
      rw [hclamp, writeLE_toLE, pow8Eight, List.cons_append, dn_u64]
      simp only [Option.some.injEq, Prod.mk.injEq]
      refine ⟨?_, trivial⟩
      omega

theorem jsRound_intCast (m : Int) : jsRound ((m : ℚ)) = m := by
  rw [jsRound]
  rw [show ((m : ℚ) + 1 / 2) = 1 / 2 + (m : ℚ) by ring]
  rw [Int.floor_add_int]
  norm_num

theorem fromUnixMillis_int (m : Int) (h1 : -8640000000000000 ≤ m)
    (h2 : m ≤ 8640000000000000) :
    Timestamp.fromUnixMillis (.val (m : ℚ)) = some ⟨m⟩ := by
  rw [Timestamp.fromUnixMillis]
  by_cases hmin : m = -8640000000000000
  · subst hmin
    rw [if_pos (by norm_num)]
    rfl
  · rw [if_neg (by exact_mod_cast (by omega : ¬m ≤ -8640000000000000))]
    by_cases hmax : m = 8640000000000000
    · subst hmax
      rw [if_neg (by norm_num)]
      rfl
    · rw [if_pos (by exact_mod_cast (by omega : m < 8640000000000000))]
      rw [jsRound_intCast]

theorem timestamp_roundtrip (t : Timestamp) (h1 : -8640000000000000 ≤ t.unixMillis)
    (h2 : t.unixMillis ≤ 8640000000000000) (rest : List Nat) :
    timestampDecode (timestampEncode t ++ rest) = some (t, rest) := by
  rw [timestampDecode, timestampEncode]
  by_cases h0 : t.unixMillis = 0
  · have hcons : writeLE 1 0 = [0] := rfl
    rw [if_pos h0, hcons, List.cons_append, dn_small 0 (by omega)]
    rw [Option.some_bind]
    simp only [List.nil_append, Nat.cast_zero]
    rw [fromUnixMillis_int 0 (by omega) (by omega)]
    rw [Option.map_some']
    cases t with
    | mk ms => simp_all
  · rw [if_neg h0, writeLE_toLE, pow8Eight, List.cons_append, dn_i64 239 (Or.inr rfl)]
    rw [Option.some_bind]
    simp only []
    have hval : asInt64 ((t.unixMillis % (18446744073709551616 : Int)).toNat %
        18446744073709551616) = t.unixMillis := by
      unfold asInt64
      split <;> omega
    rw [hval, fromUnixMillis_int t.unixMillis h1 h2, Option.map_some']

theorem bool_roundtrip (x : Bool) (rest : List Nat) :
    boolDecode (boolEncode x ++ rest) = some (x, rest) := by
  cases x <;>
    · rw [boolDecode, boolEncode]
      rw [show writeLE 1 _ = [_] from rfl, List.cons_append, dn_small _ (by omega)]
      rfl

theorem encodeUint32_spec (n : Nat) (h : n < 4294967296) :
    ∃ e, encodeUint32 n = some e ∧
      ∀ rest, decodeNumber (e ++ rest) = some ((n : Int), rest) := by
  rw [encodeUint32]
  by_cases h232 : n < 232
  · refine ⟨toLE 1 n, by rw [if_pos h232], fun rest => ?_⟩
    have hcons : toLE 1 n = [n % 256] := rfl
    rw [hcons, List.cons_append, dn_small (n % 256) (by omega)]
    congr 2
    omega
  · rw [if_neg h232]
    by_cases h65536 : n < 65536
    · refine ⟨_, by rw [if_pos h65536], fun rest => ?_⟩
      rw [List.cons_append, dn_u16]
      congr 2
      omega
    · rw [if_neg h65536]
      refine ⟨_, by rw [if_pos h], fun rest => ?_⟩
      rw [List.cons_append, dn_u32]
      congr 2
      omega

theorem bytes_roundtrip (l : List Nat) (h : l.length < 4294967296) (rest : List Nat) :
    ∃ e, bytesEncode l = some e ∧ bytesDecode (e ++ rest) = some (l, rest) := by
  rw [bytesEncode]
  by_cases h0 : l.length ≠ 0
  · obtain ⟨e32, he32, hdec⟩ := encodeUint32_spec l.length h
    rw [if_pos h0, he32, Option.map_some']
    refine ⟨_, rfl, ?_⟩
    rw [List.cons_append, List.append_assoc]
    simp only [bytesDecode]
    rw [if_neg (by omega)]
    rw [hdec (l ++ rest), Option.map_some']
    simp only [Int.toNat_ofNat]
    rw [List.take_left' rfl, List.drop_left' rfl]
  · simp only [ne_eq, not_not] at h0
    have hnil : l = [] := List.eq_nil_of_length_eq_zero h0
    subst hnil
    refine ⟨[244], by rw [if_neg (by simp)], ?_⟩
    simp only [List.cons_append, List.nil_append, bytesDecode]
    norm_num

/-! ### Claim theorems -/

/-- C5: for every int32 value `n`, the binary encoder selects the wire branch
in the specified order — `235` plus one byte for `-256 ≤ n ≤ -1`; `236` plus
u16 for `-65536 ≤ n ≤ -257`; `237` plus i32 clamped at `-2^31` for
`n < -65536`; the single byte `n` for `0 ≤ n ≤ 231`; `232` plus u16 for
`n < 65536`; else `233` plus u32 clamped at `2^31 - 1`.  In particular `232`
encodes (after the magic) as bytes `e8 e8 00` and `-257` as bytes
`ec ff fe`. -/
theorem c5_int32_wire_branches :
    (∀ n : Int, -256 ≤ n → n ≤ -1 → int32Encode n = [235, (n + 256).toNat]) ∧
    (∀ n : Int, -65536 ≤ n → n ≤ -257 →
      int32Encode n = 236 :: toLE 2 (n + 65536).toNat) ∧
    (∀ n : Int, n < -65536 →
      int32Encode n = 237 :: writeLE 4 (max n (-2147483648))) ∧
    (∀ n : Int, 0 ≤ n → n ≤ 231 → int32Encode n = [n.toNat]) ∧
    (∀ n : Int, 232 ≤ n → n ≤ 65535 → int32Encode n = 232 :: toLE 2 n.toNat) ∧
    (∀ n : Int, 65536 ≤ n → int32Encode n = 233 :: writeLE 4 (min n 2147483647)) ∧
    toBytesT int32Encode 232 = soiaMagic ++ [232, 232, 0] ∧
    toBytesT int32Encode (-257) = soiaMagic ++ [236, 255, 254] := by
  refine ⟨?_, ?_, ?_, ?_, ?_, ?_, by decide, by decide⟩
  · intro n hlo hhi
    rw [int32Encode, if_pos (by omega), if_pos hlo, writeLE_toLE, pow8One]
    have h : ((n + 256) % 256).toNat % 256 = (n + 256).toNat := by omega
    rw [show toLE 1 ((n + 256) % 256).toNat = [((n + 256) % 256).toNat % 256] from rfl, h]
  · intro n hlo hhi
    rw [int32Encode, if_pos (by omega), if_neg (by omega), if_pos hlo, writeLE_toLE, pow8Two]
    congr 2
    omega
  · intro n hn
    rw [int32Encode, if_pos (by omega), if_neg (by omega), if_neg (by omega)]
    congr 2
    rw [max_def]
    split <;> split <;> omega
  · intro n hlo hhi
    rw [int32Encode, if_neg (by omega), if_pos (by omega), writeLE_toLE, pow8One]
    have h : (n % 256).toNat % 256 = n.toNat := by omega
    rw [show toLE 1 (n % 256).toNat = [(n % 256).toNat % 256] from rfl, h]
  · intro n hlo hhi
    rw [int32Encode, if_neg (by omega), if_neg (by omega), if_pos (by omega), writeLE_toLE,
      pow8Two]
    congr 2
    omega
  · intro n hn
    rw [int32Encode, if_neg (by omega), if_neg (by omega), if_neg (by omega)]
    congr 2

/-- Witness for C5: the `236` branch at `n = -300` and the `233` branch at
`n = 100000`, evaluated to concrete bytes. -/
theorem c5_witness :
    int32Encode (-300) = [236, 212, 254] ∧ int32Encode 100000 = [233, 160, 134, 1, 0] := by
  constructor
  · have h := c5_int32_wire_branches.2.1 (-300) (by decide) (by decide)
    rw [h]
    decide
  · have h := c5_int32_wire_branches.2.2.2.2.2.1 100000 (by decide)
    rw [h]
    decide

/-- C9: `Timestamp` construction from a millisecond count clamps every
out-of-range finite input to `Timestamp.MIN` or `Timestamp.MAX` according to
its sign, and `fromUnixMillis` raises an error if and only if the input is
NaN. -/
theorem c9_timestamp_clamping :
    (∀ q : ℚ, q < -8640000000000000 → Timestamp.fromUnixMillis (.val q) = some Timestamp.MIN) ∧
    (∀ q : ℚ, 8640000000000000 < q → Timestamp.fromUnixMillis (.val q) = some Timestamp.MAX) ∧
    (∀ x : JsNum, Timestamp.fromUnixMillis x = none ↔ x = .nan) := by
  refine ⟨?_, ?_, ?_⟩
  · intro q hq
    rw [Timestamp.fromUnixMillis, if_pos (le_of_lt hq)]
  · intro q hq
    rw [Timestamp.fromUnixMillis, if_neg (by linarith), if_neg (by linarith)]
  · intro x
    cases x with
    | nan => simp [Timestamp.fromUnixMillis]
    | val q =>
      simp only [Timestamp.fromUnixMillis]
      constructor
      · intro h
        split at h
        · exact absurd h (by simp)
        · split at h <;> exact absurd h (by simp)
      · intro h
        exact absurd h (by simp)

/-- Witness for C9: clamping at `±(8.64e15 + 1)` and the NaN error, all
evaluated concretely. -/
theorem c9_witness :
    Timestamp.fromUnixMillis (.val (-8640000000000001)) = some Timestamp.MIN ∧
    Timestamp.fromUnixMillis (.val 8640000000000001) = some Timestamp.MAX ∧
    (Timestamp.fromUnixMillis .nan = none ↔ JsNum.nan = .nan) := by
  refine ⟨?_, ?_, c9_timestamp_clamping.2.2 .nan⟩
  · exact c9_timestamp_clamping.1 (-8640000000000001) (by norm_num)
  · exact c9_timestamp_clamping.2.1 8640000000000001 (by norm_num)

/-- C10: the bool serializer's `from_json` maps the JSON string `"0"` to
`false`, every other non-empty JSON string (including `"false"`) to `true`,
and the empty string, the number `0`, `null` and `false` to `false`. -/
theorem c10_bool_from_json :
    boolFromJson (.str "0") = false ∧
    (∀ s : String, s ≠ "" → s ≠ "0" → boolFromJson (.str s) = true) ∧
    boolFromJson (.str "") = false ∧
    boolFromJson (.num 0) = false ∧
    boolFromJson .null = false ∧
    boolFromJson (.bool false) = false := by
  refine ⟨by decide, ?_, by decide, ?_, by decide, by decide⟩
  · intro s h1 h2
    simp [boolFromJson, Json.truthy, jsonIsStrZero, h1, h2]
  · simp [boolFromJson, Json.truthy, jsonIsStrZero]

/-- Witness for C10: the non-empty non-`"0"` string `"false"` maps to `true`. -/
theorem c10_witness : boolFromJson (.str "false") = true :=
  c10_bool_from_json.2.1 "false" (by decide) (by decide)

theorem natDigitsAux_len_lower (k : Nat) :
    ∀ fuel m, 10 ^ k ≤ m → m ≤ fuel → k + 1 ≤ (natDigitsAux fuel m).length := by
  induction k with
  | zero =>
    intro fuel m h1 h2
    match fuel, m with
    | 0, m => omega
    | fuel + 1, 0 => omega
    | fuel + 1, m + 1 => simp [natDigitsAux]
  | succ k ih =>
    intro fuel m h1 h2
    have hm : 10 ^ (k + 1) ≥ 10 := by
      calc 10 ^ (k + 1) ≥ 10 ^ 1 := Nat.pow_le_pow_right (by omega) (by omega)
      _ = 10 := by norm_num
    match fuel, m with
    | 0, m => omega
    | fuel + 1, 0 => omega
    | fuel + 1, m + 1 =>
      rw [natDigitsAux, List.length_cons]
      have hdiv : 10 ^ k ≤ (m + 1) / 10 := by
        rw [Nat.le_div_iff_mul_le (by omega)]
        calc 10 ^ k * 10 = 10 ^ (k + 1) := by ring
        _ ≤ m + 1 := h1
      have hlt : (m + 1) / 10 ≤ fuel := by
        have := Nat.div_lt_self (show 0 < m + 1 by omega) (show 1 < 10 by omega)
        omega
      have := ih fuel ((m + 1) / 10) hdiv hlt
      omega

theorem natDecimalStr_len_lower (k m : Nat) (h : 10 ^ k ≤ m) :
    k + 1 ≤ (natDecimalStr m).length := by
  have hm : m ≠ 0 := by
    have : 1 ≤ 10 ^ k := Nat.one_le_pow k 10 (by omega)
    omega
  rw [natDecimalStr, if_neg hm]
  have hlen : (((natDigits m).reverse.map Nat.digitChar).asString).length =
      (natDigits m).length := by
    rw [show (((natDigits m).reverse.map Nat.digitChar).asString).length =
      ((natDigits m).reverse.map Nat.digitChar).length from rfl]
    rw [List.length_map, List.length_reverse]
  rw [hlen]
  exact natDigitsAux_len_lower k m m h le_rfl

theorem jsIntToString_len_lower_neg (n : Int) (h : n ≤ -1000000000000000000) :
    19 < (jsIntToString n).length := by
  rw [jsIntToString, if_pos (by omega)]
  rw [String.length_append]
  have : 19 ≤ (natDecimalStr n.natAbs).length := by
    refine natDecimalStr_len_lower 18 n.natAbs ?_
    have : (1000000000000000000 : Int) ≤ n.natAbs := by omega
    norm_num
    omega
  have hone : ("-" : String).length = 1 := rfl
  omega

theorem jsIntToString_len_lower_pos (n : Int) (h : 1000000000000000000 ≤ n) :
    18 < (jsIntToString n).length := by
  rw [jsIntToString, if_neg (by omega)]
  refine natDecimalStr_len_lower 18 n.natAbs ?_
  have : (1000000000000000000 : Int) ≤ n.natAbs := by omega
  norm_num
  omega

/-- C6 (amended): the int64 serializer's `to_json` clamps out-of-range values
to the int64 range `[-2^63, 2^63 - 1]` (not to `±(2^63 - 1)`: the lower clamp
is `-2^63`), the uint64 serializer's to `[0, 2^64 - 1]`; for either, inputs of
absolute value at most `2^53 - 1` serialize as a JSON number and larger
in-range inputs as a decimal string. -/
theorem c6_int64_uint64_json_amended :
    (∀ n : Int, -9007199254740991 ≤ n → n ≤ 9007199254740991 →
      int64ToJson n = .num (n : ℚ)) ∧
    (∀ n : Int, 9007199254740991 < n → n ≤ maxInt64 →
      int64ToJson n = .str (jsIntToString n)) ∧
    (∀ n : Int, minInt64 ≤ n → n < -9007199254740991 →
      int64ToJson n = .str (jsIntToString n)) ∧
    (∀ n : Int, maxInt64 < n → int64ToJson n = .str (jsIntToString maxInt64)) ∧
    (∀ n : Int, n < minInt64 → int64ToJson n = .str (jsIntToString minInt64)) ∧
    (∀ n : Int, 0 ≤ n → n ≤ 9007199254740991 → uint64ToJson n = .num (n : ℚ)) ∧
    (∀ n : Int, n ≤ 0 → uint64ToJson n = .num 0) ∧
    (∀ n : Int, 9007199254740991 < n → n ≤ maxUint64 →
      uint64ToJson n = .str (jsIntToString n)) ∧
    (∀ n : Int, maxUint64 < n → uint64ToJson n = .str (jsIntToString maxUint64)) := by
  rw [minInt64, maxInt64, maxUint64]
  refine ⟨?_, ?_, ?_, ?_, ?_, ?_, ?_, ?_, ?_⟩
  · intro n h1 h2
    rw [int64ToJson, if_pos ⟨h1, h2⟩]
  · intro n h1 h2
    rw [int64ToJson, if_neg (by rw [not_and_or]; omega)]
    simp only [minInt64, maxInt64]
    by_cases hlen : (jsIntToString n).length ≤ 18
    · rw [if_pos hlen]
    · rw [if_neg hlen, if_neg (by omega)]
      by_cases hmax : n < 9223372036854775807
      · rw [if_pos hmax]
      · rw [if_neg hmax]
        have : n = 9223372036854775807 := by omega
        rw [this]
  · intro n h1 h2
    rw [int64ToJson, if_neg (by rw [not_and_or]; omega)]
    simp only [minInt64, maxInt64]
    by_cases hlen : (jsIntToString n).length ≤ 18
    · rw [if_pos hlen]
    · rw [if_neg hlen, if_neg (by omega), if_pos (by omega)]
  · intro n h1
    rw [int64ToJson, if_neg (by rw [not_and_or]; omega)]
    simp only [minInt64, maxInt64]
    have hlen := jsIntToString_len_lower_pos n (by omega)
    rw [if_neg (by omega), if_neg (by omega), if_neg (by omega)]
  · intro n h1
    rw [int64ToJson, if_neg (by rw [not_and_or]; omega)]
    simp only [minInt64, maxInt64]
    have hlen := jsIntToString_len_lower_neg n (by omega)
    rw [if_neg (by omega), if_pos (by omega)]
  · intro n h1 h2
    rw [uint64ToJson, if_pos h2]
    by_cases h0 : n ≤ 0
    · have : n = 0 := by omega
      rw [if_pos h0, this]
      norm_num
    · rw [if_neg h0]
  · intro n h1
    rw [uint64ToJson, if_pos (by omega), if_pos h1]
  · intro n h1 h2
    rw [uint64ToJson, if_neg (by omega)]
    simp only [maxUint64]
    rw [if_neg (by omega)]
  · intro n h1
    rw [uint64ToJson, if_neg (by omega)]
    simp only [maxUint64]
    rw [if_pos (by omega)]

/-- Counterexample for C6: at `n = -2^63 - 1` the int64 `to_json` clamp
produces the decimal string of `-2^63`, whose absolute value exceeds
`2^63 - 1`, not the string of `-(2^63 - 1)` that a literal `±(2^63 - 1)` clamp
would give. -/
theorem c6_counterexample :
    int64ToJson (-9223372036854775809) = .str "-9223372036854775808" ∧
    int64ToJson (-9223372036854775809) ≠ .str "-9223372036854775807" := by
  have h : int64ToJson (-9223372036854775809) = .str "-9223372036854775808" := by
    have := c6_int64_uint64_json_amended.2.2.2.2.1 (-9223372036854775809) (by decide)
    rw [this]
    rw [show jsIntToString minInt64 = "-9223372036854775808" from rfl]
  refine ⟨h, ?_⟩
  rw [h]
  intro hc
  rw [Json.str.injEq] at hc
  exact absurd hc (by decide)

/-- Witness for C6: the number/string threshold and the upper clamps,
evaluated concretely. -/
theorem c6_witness :
    int64ToJson 12 = .num 12 ∧
    int64ToJson 9007199254740992 = .str "9007199254740992" ∧
    int64ToJson 9223372036854775808 = .str "9223372036854775807" ∧
    uint64ToJson (-3) = .num 0 ∧
    uint64ToJson 18446744073709551616 = .str "18446744073709551615" := by
  refine ⟨?_, ?_, ?_, ?_, ?_⟩
  · have := c6_int64_uint64_json_amended.1 12 (by decide) (by decide)
    rw [this]
    norm_num
  · have := c6_int64_uint64_json_amended.2.1 9007199254740992 (by decide) (by decide)
    rw [this]
    rw [show jsIntToString 9007199254740992 = "9007199254740992" from rfl]
  · have := c6_int64_uint64_json_amended.2.2.2.1 9223372036854775808 (by decide)
    rw [this]
    rw [show jsIntToString maxInt64 = "9223372036854775807" from rfl]
  · exact c6_int64_uint64_json_amended.2.2.2.2.2.2.1 (-3) (by decide)
  · have := c6_int64_uint64_json_amended.2.2.2.2.2.2.2.2 18446744073709551616 (by decide)
    rw [this]
    rw [show jsIntToString maxUint64 = "18446744073709551615" from rfl]

/-! ### The unused-field skipper consumes exactly one encoder-emitted element -/

theorem consumesExactly_flat (w k : Nat) (t : List Nat) (hlen : t.length = k)
    (hcase : (w < 232 ∧ k = 0) ∨ (w = 235 ∧ k = 1) ∨ ((w = 232 ∨ w = 236) ∧ k = 2) ∨
      ((w = 233 ∨ w = 237 ∨ w = 240) ∧ k = 4) ∨
      ((w = 234 ∨ w = 238 ∨ w = 239 ∨ w = 241) ∧ k = 8)) :
    ConsumesExactly (w :: t) := by
  refine ⟨by simp, fun fuel rest hfuel => ?_⟩
  match fuel with
  | 0 => simp at hfuel
  | f + 1 =>
    rw [List.cons_append, decodeUnusedF]
    rcases hcase with ⟨hw, hk⟩ | ⟨hw, hk⟩ | ⟨hw, hk⟩ | ⟨hw, hk⟩ | ⟨hw, hk⟩ <;> subst hk
    · rw [if_pos hw, List.eq_nil_of_length_eq_zero hlen, List.nil_append]
    · subst hw
      rw [if_neg (by omega), if_neg (by omega), if_neg (by omega), if_neg (by omega),
        if_pos rfl, List.drop_left' hlen]
    · rcases hw with hw | hw <;> subst hw <;>
        rw [if_neg (by omega), if_pos (by omega), List.drop_left' hlen]
    · rcases hw with hw | hw | hw <;> subst hw <;>
        rw [if_neg (by omega), if_neg (by omega), if_pos (by omega), List.drop_left' hlen]
    · rcases hw with hw | hw | hw | hw <;> subst hw <;>
        rw [if_neg (by omega), if_neg (by omega), if_neg (by omega), if_pos (by omega),
          List.drop_left' hlen]

theorem consumesExactly_small (b : Nat) (h : b < 232) : ConsumesExactly [b] :=
  consumesExactly_flat b 0 [] rfl (Or.inl ⟨h, rfl⟩)

theorem consumesExactly_zero : ConsumesExactly [0] := consumesExactly_small 0 (by omega)

theorem consumesExactly_int32 (n : Int) : ConsumesExactly (int32Encode n) := by
  rw [int32Encode]
  by_cases hn : n < 0
  · rw [if_pos hn]
    by_cases h256 : -256 ≤ n
    · rw [if_pos h256]
      exact consumesExactly_flat 235 1 _ (toLE_length 1 _) (by norm_num)
    · rw [if_neg h256]
      by_cases h65536 : -65536 ≤ n
      · rw [if_pos h65536]
        exact consumesExactly_flat 236 2 _ (toLE_length 2 _) (by norm_num)
      · rw [if_neg h65536]
        exact consumesExactly_flat 237 4 _ (toLE_length 4 _) (by norm_num)
  · rw [if_neg hn]
    by_cases h232 : n < 232
    · rw [if_pos h232, writeLE_toLE, pow8One]
      rw [show toLE 1 (n % 256).toNat = [(n % 256).toNat % 256] from rfl]
      exact consumesExactly_small _ (by omega)
    · rw [if_neg h232]
      by_cases h65536 : n < 65536
      · rw [if_pos h65536]
        exact consumesExactly_flat 232 2 _ (toLE_length 2 _) (by norm_num)
      · rw [if_neg h65536]
        exact consumesExactly_flat 233 4 _ (toLE_length 4 _) (by norm_num)

theorem joinRange_split (blocks : Nat → List Nat) (i a b : Nat) :
    joinRange blocks i (a + b) = joinRange blocks i a ++ joinRange blocks (i + a) b := by
  induction a generalizing i with
  | zero => simp [joinRange]
  | succ a ih =>
    rw [show a + 1 + b = (a + b) + 1 from by omega, joinRange, joinRange, ih,
      List.append_assoc, show i + 1 + a = i + (a + 1) from by omega]

theorem skipManyWith_blocks (blocks : Nat → List Nat) (count : Nat) :
    ∀ i (fuel : Nat) (rest : List Nat),
      (∀ j, i ≤ j → j < i + count → ConsumesExactly (blocks j)) →
      (joinRange blocks i count).length ≤ fuel →
      skipManyWith (decodeUnusedF fuel) count (joinRange blocks i count ++ rest) =
        some rest := by
  induction count with
  | zero =>
    intro i fuel rest _ _
    rw [joinRange, List.nil_append, skipManyWith]
  | succ count ih =>
    intro i fuel rest hblocks hfuel
    rw [joinRange, List.append_assoc, skipManyWith]
    have hhead := hblocks i le_rfl (by omega)
    rw [joinRange] at hfuel
    rw [List.length_append] at hfuel
    rw [hhead.2 fuel (joinRange blocks (i + 1) count ++ rest) (by omega), Option.some_bind]
    exact ih (i + 1) fuel rest (fun j h1 h2 => hblocks j (by omega) (by omega)) (by omega)

/-! ### Slot loops over concatenated per-slot blocks -/

theorem encodeSlots_blocks (S : StructSerializer V) (x : Nat → V)
    (blocks : Nat → List Nat) (count : Nat) :
    ∀ i, (∀ j, i ≤ j → j < i + count →
        (∀ c, S.slots j = some c → c.encode (x j) = some (blocks j)) ∧
        (S.slots j = none → blocks j = [0])) →
      encodeSlots S x i count = some (joinRange blocks i count) := by
  induction count with
  | zero => intro i _; rfl
  | succ count ih =>
    intro i hblocks
    rw [encodeSlots, joinRange]
    have hhead := hblocks i le_rfl (by omega)
    have htail := ih (i + 1) (fun j h1 h2 => hblocks j (by omega) (by omega))
    match hs : S.slots i with
    | some c =>
      simp only []
      rw [hhead.1 c hs, Option.some_bind, htail, Option.map_some']
    | none =>
      simp only []
      rw [hhead.2 hs, Option.some_bind, htail, Option.map_some']

theorem decodeSlots_blocks (S : StructSerializer V) (v : Nat → V)
    (blocks : Nat → List Nat) (count : Nat) :
    ∀ i (x0 : Nat → V) (rest : List Nat),
      (∀ j, i ≤ j → j < i + count →
        (∀ c, S.slots j = some c → ∀ r, c.decode (blocks j ++ r) = some (v j, r)) ∧
        (S.slots j = none → blocks j = [0])) →
      ∃ x1, decodeSlots S count i x0 (joinRange blocks i count ++ rest) = some (x1, rest) ∧
        (∀ j, i ≤ j → j < i + count → (S.slots j).isSome = true → x1 j = v j) ∧
        (∀ j, ¬(i ≤ j ∧ j < i + count ∧ (S.slots j).isSome = true) → x1 j = x0 j) := by
  induction count with
  | zero =>
    intro i x0 rest _
    refine ⟨x0, by rw [joinRange, List.nil_append, decodeSlots], ?_, fun j _ => rfl⟩
    intro j h1 h2
    omega
  | succ count ih =>
    intro i x0 rest hblocks
    have hhead := hblocks i le_rfl (by omega)
    rw [joinRange, List.append_assoc, decodeSlots]
    match hs : S.slots i with
    | some c =>
      simp only []
      rw [hhead.1 c hs (joinRange blocks (i + 1) count ++ rest), Option.some_bind]
      obtain ⟨x1, hdec, hin, hout⟩ := ih (i + 1) (updateAt x0 i (v i)) rest
        (fun j h1 h2 => hblocks j (by omega) (by omega))
      refine ⟨x1, hdec, ?_, ?_⟩
      · intro j h1 h2 hsome
        by_cases hj : j = i
        · subst hj
          rw [hout j (by omega), updateAt, if_pos rfl]
        · exact hin j (by omega) (by omega) hsome
      · intro j hj
        rw [hout j (by intro hc; exact hj ⟨by omega, by omega, hc.2.2⟩), updateAt,
          if_neg (by intro he; subst he; exact hj ⟨le_rfl, by omega, by rw [hs]; rfl⟩)]
    | none =>
      simp only []
      have hzero : blocks i = [0] := hhead.2 hs
      rw [hzero, decodeUnused]
      have hskip := consumesExactly_zero.2
        ((([0] : List Nat) ++ (joinRange blocks (i + 1) count ++ rest)).length)
        (joinRange blocks (i + 1) count ++ rest) (by simp)
      rw [hskip, Option.some_bind]
      obtain ⟨x1, hdec, hin, hout⟩ := ih (i + 1) x0 rest
        (fun j h1 h2 => hblocks j (by omega) (by omega))
      refine ⟨x1, hdec, ?_, ?_⟩
      · intro j h1 h2 hsome
        by_cases hj : j = i
        · subst hj
          rw [hs] at hsome
          exact absurd hsome (by simp)
        · exact hin j (by omega) (by omega) hsome
      · intro j hj
        by_cases hj2 : i + 1 ≤ j ∧ j < i + 1 + count ∧ (S.slots j).isSome = true
        · exact absurd ⟨by omega, by omega, hj2.2.2⟩ hj
        · exact hout j hj2

/-! ### getArrayLength characterizations -/

theorem getArrayLengthAux_le (S : StructSerializer V) (x : Nat → V) (n : Nat) :
    getArrayLengthAux S x n ≤ n := by
  induction n with
  | zero => simp [getArrayLengthAux]
  | succ n ih =>
    rw [getArrayLengthAux]
    match S.slots n with
    | some c =>
      simp only []
      split
      · omega
      · omega
    | none =>
      simp only []
      omega

theorem getArrayLengthAux_default_above (S : StructSerializer V) (x : Nat → V) (n : Nat) :
    ∀ j c, getArrayLengthAux S x n ≤ j → j < n → S.slots j = some c →
      c.isDefault (x j) = true := by
  induction n with
  | zero => intro j c _ h2 _; omega
  | succ n ih =>
    intro j c h1 h2 hs
    rw [getArrayLengthAux] at h1
    by_cases hj : j = n
    · subst hj
      rw [hs] at h1
      simp only [] at h1
      by_cases hd : c.isDefault (x j) = true
      · exact hd
      · rw [if_neg hd] at h1
        omega
    · have hlt : j < n := by omega
      match hsn : S.slots n with
      | some cn =>
        rw [hsn] at h1
        simp only [] at h1
        by_cases hd : cn.isDefault (x n) = true
        · rw [if_pos hd] at h1
          exact ih j c h1 hlt hs
        · rw [if_neg hd] at h1
          omega
      | none =>
        rw [hsn] at h1
        simp only [] at h1
        exact ih j c h1 hlt hs

theorem getArrayLengthAux_eq (S : StructSerializer V) (x : Nat → V) (t : Nat) :
    ∀ n, t ≤ n →
      (∀ j c, t ≤ j → j < n → S.slots j = some c → c.isDefault (x j) = true) →
      (0 < t → ∃ c, S.slots (t - 1) = some c ∧ c.isDefault (x (t - 1)) = false) →
      getArrayLengthAux S x n = t := by
  intro n
  induction n with
  | zero => intro h _ _; rw [getArrayLengthAux]; omega
  | succ n ih =>
    intro hle habove hlast
    by_cases ht : t = n + 1
    · obtain ⟨c, hc, hcd⟩ := hlast (by omega)
      rw [getArrayLengthAux]
      rw [show t - 1 = n from by omega] at hc hcd
      rw [hc]
      simp only []
      rw [hcd]
      simp only [Bool.false_eq_true, if_false]
      omega
    · have hle2 : t ≤ n := by omega
      have ih2 := ih hle2 (fun j c h1 h2 hs => habove j c h1 (by omega) hs) hlast
      rw [getArrayLengthAux]
      match hsn : S.slots n with
      | some c =>
        simp only []
        rw [habove n c (by omega) (by omega) hsn]
        simp only [if_true]
        exact ih2
      | none => exact ih2

/-! ### Reading back a length header -/

theorem lengthHeader_read (t : Nat) (H : List Nat) (h32 : t < 4294967296) (h1 : 1 ≤ t)
    (hH : lengthHeader t = some H) :
    ∃ w tail, H = w :: tail ∧ ¬(w = 0 ∨ w = 246) ∧
      ∀ rest, (if w = 250 then decodeNumber (tail ++ rest)
               else some ((w : Int) - 246, tail ++ rest)) = some ((t : Int), rest) := by
  rw [lengthHeader] at hH
  by_cases h3 : t ≤ 3
  · rw [if_pos h3] at hH
    cases hH
    refine ⟨246 + t, [], rfl, by omega, fun rest => ?_⟩
    rw [if_neg (by omega), List.nil_append]
    simp only [Option.some.injEq, Prod.mk.injEq]
    exact ⟨by omega, trivial⟩
  · rw [if_neg h3] at hH
    obtain ⟨e, he, hdec⟩ := encodeUint32_spec t h32
    rw [he, Option.map_some'] at hH
    cases hH
    exact ⟨250, e, rfl, by omega, fun rest => by rw [if_pos rfl]; exact hdec rest⟩

theorem min_intCast_toNat (t r : Nat) : (min ((t : Nat) : Int) ((r : Nat) : Int)).toNat = min t r := by
  rw [← Nat.cast_min]
  exact Int.toNat_natCast _

/-- Decoding a well-formed dense struct buffer: a canonical length header for
`t ≥ 1` slots followed by one block per slot — codec-decodable blocks (or
`[0]` for removed slots) below `recognizedSlots`, skip-consumable blocks
above.  The recognized fields decode to their values, excess slots are
captured (in keep mode) as the raw byte suffix with the observed total. -/
theorem structDecode_comp (V : Type) [Inhabited V] (S : StructSerializer V)
    (v : Nat → V) (blocks : Nat → List Nat) (t : Nat) (H : List Nat) (keep : Bool)
    (h32 : t < 4294967296) (h1 : 1 ≤ t)
    (hH : lengthHeader t = some H)
    (hrecog : ∀ i, i < t → i < S.recognizedSlots →
      (∀ c, S.slots i = some c → ∀ rest, c.decode (blocks i ++ rest) = some (v i, rest)) ∧
      (S.slots i = none → blocks i = [0]))
    (hunk : ∀ i, i < t → S.recognizedSlots ≤ i → ConsumesExactly (blocks i)) :
    ∃ x1, structDecode S keep (H ++ joinRange blocks 0 t) =
        some (⟨x1,
          if S.recognizedSlots < t then
            (if keep then
              some ⟨S.token, t,
                some (joinRange blocks S.recognizedSlots (t - S.recognizedSlots))⟩
            else none)
          else none⟩, []) ∧
      (∀ j, j < min t S.recognizedSlots → (S.slots j).isSome = true → x1 j = v j) ∧
      (∀ j, ¬(j < min t S.recognizedSlots ∧ (S.slots j).isSome = true) →
        x1 j = dfltAt S j) := by
  obtain ⟨w, tail, hHcons, hw, hread⟩ := lengthHeader_read t H h32 h1 hH
  subst hHcons
  rw [List.cons_append, structDecode, if_neg hw, hread (joinRange blocks 0 t),
    Option.some_bind]
  simp only []
  rw [min_intCast_toNat t S.recognizedSlots]
  by_cases hby : S.recognizedSlots < t
  · have hmin : min t S.recognizedSlots = S.recognizedSlots := by omega
    rw [hmin]
    have hsplit : joinRange blocks 0 t = joinRange blocks 0 S.recognizedSlots ++
        joinRange blocks S.recognizedSlots (t - S.recognizedSlots) := by
      have h := joinRange_split blocks 0 S.recognizedSlots (t - S.recognizedSlots)
      rw [show S.recognizedSlots + (t - S.recognizedSlots) = t from by omega] at h
      simpa using h
    rw [hsplit]
    obtain ⟨x1, hdec, hin, hout⟩ := decodeSlots_blocks S v blocks S.recognizedSlots 0
      (fun i => dfltAt S i) (joinRange blocks S.recognizedSlots (t - S.recognizedSlots))
      (fun j hj1 hj2 => hrecog j (by omega) (by omega))
    rw [hdec, Option.some_bind]
    simp only []
    rw [if_pos (by exact_mod_cast hby)]
    rw [skipElems]
    have hcast : (((t : Nat) : Int) - ((S.recognizedSlots : Nat) : Int)).toNat
        = t - S.recognizedSlots := by omega
    rw [hcast]
    have hskip : skipManyWith
        (decodeUnusedF (joinRange blocks S.recognizedSlots (t - S.recognizedSlots)).length)
        (t - S.recognizedSlots) (joinRange blocks S.recognizedSlots (t - S.recognizedSlots))
        = some [] := by
      have h := skipManyWith_blocks blocks (t - S.recognizedSlots) S.recognizedSlots
        (joinRange blocks S.recognizedSlots (t - S.recognizedSlots)).length []
        (fun j hj1 hj2 => hunk j (by omega) (by omega)) le_rfl
      rwa [List.append_nil] at h
    rw [hskip, Option.map_some']
    refine ⟨x1, ?_, ?_, ?_⟩
    · rw [if_pos hby]
      simp only [List.length_nil, Nat.sub_zero, List.take_length]
      rw [show ((t : Nat) : Int).toNat = t from by omega]
    · intro j hj hsome
      exact hin j (by omega) (by omega) hsome
    · intro j hj
      exact hout j (by intro hc; exact hj ⟨by omega, hc.2.2⟩)
  · have hmin : min t S.recognizedSlots = t := by omega
    rw [hmin]
    obtain ⟨x1, hdec, hin, hout⟩ := decodeSlots_blocks S v blocks t 0
      (fun i => dfltAt S i) []
      (fun j hj1 hj2 => hrecog j (by omega) (by omega))
    rw [List.append_nil] at hdec
    rw [hdec, Option.some_bind]
    simp only []
    rw [if_neg (by exact_mod_cast hby)]
    refine ⟨x1, ?_, ?_, ?_⟩
    · rw [if_neg hby]
    · intro j hj hsome
      exact hin j (by omega) (by omega) hsome
    · intro j hj
      exact hout j (by intro hc; exact hj ⟨by omega, hc.2.2⟩)

theorem lengthHeader_eq_spec (n : Nat) : lengthHeader n = specLengthHeader n := by
  match n with
  | 0 => rfl
  | 1 => rfl
  | 2 => rfl
  | 3 => rfl
  | n + 4 =>
    rw [lengthHeader, specLengthHeader, if_neg (by omega), if_neg (by omega),
      if_neg (by omega), if_neg (by omega), if_neg (by omega)]

/-- C1 (amended): the array/struct length header is `246 + N` for `N ≤ 3` —
`246` for 0 slots, `247` for 1, `248` for 2 and `249` for 3 — and `250`
followed by `N` (via the wire grammar) for `N ≥ 4`; wire `248` is thus also
emitted as the 2-slot array/struct header, not reserved for enums. -/
theorem c1_length_header_amended :
    (∀ n : Nat, lengthHeader n = specLengthHeader n) ∧
    (∀ (α : Type) (encItem : α → Option (List Nat)) (input : List α) (b : List Nat),
      arrayEncode encItem input = some b →
      ∃ h rest, specLengthHeader input.length = some h ∧ b = h ++ rest) ∧
    (∀ (V : Type) (S : StructSerializer V) (x : StructValue V) (b : List Nat),
      structEncode S x = some b →
      ∃ h rest, specLengthHeader (structEncodeInfo S x).1 = some h ∧ b = h ++ rest) := by
  refine ⟨lengthHeader_eq_spec, ?_, ?_⟩
  · intro α encItem input b henc
    rw [arrayEncode, lengthHeader_eq_spec] at henc
    rw [Option.bind_eq_some] at henc
    obtain ⟨h, hh, hmap⟩ := henc
    rw [Option.map_eq_some'] at hmap
    obtain ⟨items, _, hb⟩ := hmap
    exact ⟨h, items, hh, hb.symm⟩
  · intro V S x b henc
    rw [structEncode, lengthHeader_eq_spec] at henc
    rw [Option.bind_eq_some] at henc
    obtain ⟨h, hh, hmap⟩ := henc
    rw [Option.map_eq_some'] at hmap
    obtain ⟨body, _, hb⟩ := hmap
    exact ⟨h, body ++ (structEncodeInfo S x).2.2, hh, by rw [← hb, List.append_assoc]⟩

/-- Counterexample for C1: an `array<int32>` of 2 elements is emitted with
header byte `248` (not `249` as the claim states, and `248` is not reserved
for enums), and an array of 3 elements with header byte `249` (not
`250` + length). -/
theorem c1_counterexample :
    arrayEncode int32EncodeO [10, 11] = some [248, 10, 11] ∧
    arrayEncode int32EncodeO [10, 11, 12] = some [249, 10, 11, 12] ∧
    (248 : Nat) ≠ 249 := ⟨rfl, rfl, by decide⟩

/-- Witness for C1: the amended header table applied to the 2-element
array encoding. -/
theorem c1_witness :
    ∃ h rest, specLengthHeader 2 = some h ∧ [248, 10, 11] = h ++ rest :=
  c1_length_header_amended.2.1 Int int32EncodeO [10, 11] [248, 10, 11] rfl

theorem getArrayLengthAux_all_default (S : StructSerializer V) (x : Nat → V)
    (n : Nat) (h : ∀ i c, i < n → S.slots i = some c → c.isDefault (x i) = true) :
    getArrayLengthAux S x n = 0 := by
  induction n with
  | zero => rfl
  | succ n ih =>
    rw [getArrayLengthAux]
    have ih2 := ih (fun i c hi hc => h i c (by omega) hc)
    match hs : S.slots n with
    | some c =>
      simp only []
      rw [h n c (by omega) hs]
      simp [ih2]
    | none => exact ih2

theorem structEncode_default (S : StructSerializer V) [Inhabited V]
    (hdef : ∀ i c, S.slots i = some c → c.isDefault c.dflt = true) :
    structEncode S (defaultStruct S) = some [246] := by
  have hga : getArrayLength S (defaultStruct S) = 0 := by
    rw [getArrayLength]
    refine getArrayLengthAux_all_default S _ S.recognizedSlots ?_
    intro i c _ hc
    have : dfltAt S i = c.dflt := by rw [dfltAt, hc]
    rw [defaultStruct]
    simp only []
    rw [this]
    exact hdef i c hc
  rw [structEncode]
  have hinfo : structEncodeInfo S (defaultStruct S) = (0, 0, []) := by
    rw [structEncodeInfo, defaultStruct]
    simp only [hga]
    rw [← defaultStruct, hga]
  rw [hinfo]
  rfl

/-- C2 (amended): for every struct serializer whose field defaults satisfy
their codecs' `isDefault`, encoding the default instance (every field default,
no unknown-fields payload) yields exactly one byte after the `"soia"` magic,
and that byte is `246` (`0xf6`) — not `0x00` as the claim states (the decoder
accepts both `0` and `246` as the default instance). -/
theorem c2_default_struct_encoding_amended :
    ∀ (V : Type) [Inhabited V] (S : StructSerializer V),
      (∀ i c, S.slots i = some c → c.isDefault c.dflt = true) →
      structEncode S (defaultStruct S) = some [246] ∧
      toBytesO (structEncode S) (defaultStruct S) = some (soiaMagic ++ [246]) := by
  intro V inst S hdef
  have henc := structEncode_default S hdef
  exact ⟨henc, by rw [toBytesO, henc]; rfl⟩

/-- Counterexample for C2: for a concrete struct serializer (one int32 field
numbered 0) the default instance encodes as the single byte `246`, which is
not `0x00`. -/
theorem c2_counterexample :
    structEncode exampleStruct (defaultStruct exampleStruct) = some [246] ∧
    some [246] ≠ some [(0 : Nat)] := ⟨rfl, by decide⟩

/-- Witness for C2: the amended theorem applied to the concrete example
struct. -/
theorem c2_witness :
    structEncode exampleStruct (defaultStruct exampleStruct) = some [246] ∧
    toBytesO (structEncode exampleStruct) (defaultStruct exampleStruct) =
      some (soiaMagic ++ [246]) := by
  refine c2_default_struct_encoding_amended Int exampleStruct ?_
  intro i c h
  rw [exampleStruct] at h
  simp only [] at h
  by_cases h0 : i = 0
  · rw [if_pos h0] at h
    cases h
    rfl
  · rw [if_neg h0] at h
    exact Option.noConfusion h

/-- C3 (amended): decoding a buffer whose content after the magic is one zero
byte, and `from_json(0)`, yield the serializer's default value for every
embedded non-optional serializer (bool, int32, int64/uint64, timestamp, bytes,
array, struct); for the `optional<T>` serializer — whose default value is
`null` — both instead delegate to `T` (a zero byte is not `255`, and `0` is
not `null`), yielding the wrapped serializer's zero-decode (for
`optional<int32>`: the value `0`), not `null`. -/
theorem c3_zero_yields_default_amended :
    (∀ rest, boolDecode (0 :: rest) = some (false, rest)) ∧
    boolFromJson (.num 0) = false ∧
    (∀ rest, int32Decode (0 :: rest) = some (0, rest)) ∧
    int32FromJson (.num 0) = some 0 ∧
    (∀ rest, decodeBigInt (0 :: rest) = some (0, rest)) ∧
    bigintFromJson (.num 0) = some 0 ∧
    (∀ rest, timestampDecode (0 :: rest) = some (Timestamp.UNIX_EPOCH, rest)) ∧
    timestampFromJson (.num 0) = some Timestamp.UNIX_EPOCH ∧
    (∀ rest, bytesDecode (0 :: rest) = some ([], rest)) ∧
    bytesFromJson (.num 0) = some [] ∧
    (∀ (α : Type) (decItem : List Nat → Option (α × List Nat)) rest,
      arrayDecode decItem (0 :: rest) = some ([], rest)) ∧
    (∀ (α : Type) (fromJsonItem : Json → Option α),
      arrayFromJson fromJsonItem (.num 0) = some []) ∧
    (∀ (V : Type) [Inhabited V] (S : StructSerializer V) (keep : Bool) rest,
      structDecode S keep (0 :: rest) = some (defaultStruct S, rest)) ∧
    (∀ (V : Type) [Inhabited V] (S : StructSerializer V),
      structFromJson S (.num 0) = some (defaultStruct S)) ∧
    (∀ rest, optionalDecode int32Decode (0 :: rest) = some (some 0, rest)) ∧
    optionalFromJson int32FromJson (.num 0) = some (some 0) ∧
    (optionalDefault : Option Int) = none := by
  have hdn : ∀ rest, decodeNumber (0 :: rest) = some (0, rest) := fun rest => by
    have := dn_small 0 (by omega) rest
    simpa using this
  have hint32 : int32FromJson (.num 0) = some 0 := by
    rw [int32FromJson, jsToNumber, Option.map_some']
    rw [show jsTrunc 0 = 0 by rw [jsTrunc, if_neg (by norm_num)]; simp]
    rfl
  refine ⟨?_, by decide, ?_, hint32, ?_, ?_, ?_, ?_, ?_, ?_, ?_, ?_, ?_, ?_, ?_, ?_, rfl⟩
  · intro rest
    rw [boolDecode, hdn, Option.map_some']
    simp
  · intro rest
    rw [int32Decode, hdn, Option.map_some']
    rfl
  · intro rest
    rw [decodeBigInt, hdn]
  · rw [bigintFromJson]
    norm_num
  · intro rest
    rw [timestampDecode, hdn, Option.some_bind]
    simp only []
    rw [show ((0 : Int) : ℚ) = (((0 : Int) : ℚ)) from rfl,
      fromUnixMillis_int 0 (by omega) (by omega), Option.map_some']
    rfl
  · rw [timestampFromJson]
    rw [show (0 : ℚ) = ((0 : Int) : ℚ) by norm_num, fromUnixMillis_int 0 (by omega) (by omega)]
    rfl
  · intro rest
    simp [bytesDecode]
  · rw [bytesFromJson]
    norm_num
  · intro α decItem rest
    simp [arrayDecode]
  · intro α fromJsonItem
    rw [arrayFromJson]
    norm_num
  · intro V inst S keep rest
    simp [structDecode]
  · intro V inst S
    rw [structFromJson, if_pos (by simp [Json.truthy])]
  · intro rest
    rw [optionalDecode, if_neg (by omega)]
    have h32 : int32Decode (0 :: rest) = some (0, rest) := by
      rw [int32Decode, hdn, Option.map_some']
      rfl
    rw [h32, Option.map_some']
  · rw [show optionalFromJson int32FromJson (.num 0) =
        (int32FromJson (.num 0)).map some from rfl, hint32, Option.map_some']

/-- Counterexample for C3: for the `optional<int32>` serializer, decoding a
single zero byte yields the value `0` and `from_json(0)` yields `0`, while the
serializer's default value is `null` — so neither yields the default value. -/
theorem c3_counterexample :
    optionalDecode int32Decode [0] = some (some 0, []) ∧
    optionalFromJson int32FromJson (.num 0) = some (some 0) ∧
    some (0 : Int) ≠ (optionalDefault : Option Int) := by
  refine ⟨?_, c3_zero_yields_default_amended.2.2.2.2.2.2.2.2.2.2.2.2.2.2.2.1, by decide⟩
  have := c3_zero_yields_default_amended.2.2.2.2.2.2.2.2.2.2.2.2.2.2.1 []
  exact this

/-- Witness for C3: the struct and optional components applied concretely. -/
theorem c3_witness :
    structDecode exampleStruct false [0] = some (defaultStruct exampleStruct, []) ∧
    optionalDecode int32Decode [0, 7] = some (some 0, [7]) := by
  refine ⟨?_, ?_⟩
  · exact c3_zero_yields_default_amended.2.2.2.2.2.2.2.2.2.2.2.2.1 Int exampleStruct false []
  · exact c3_zero_yields_default_amended.2.2.2.2.2.2.2.2.2.2.2.2.2.2.1 [7]

/-- C4 (code bug): for a service with one registered method named `"Foo"`
numbered `42`, `handle_request` with body `""` or `"list"` returns an OK JSON
listing in which the `"method"` key carries the name — but the `"number"` key
carries the *name* as well (the source assigns `methodImpl.method.name` to
both keys), not the method's number `42`. -/
theorem c4_method_listing_number_bug :
    handleRequestList ⟨[⟨"Foo", 42, .null, .null⟩]⟩ "" =
      some (.obj [("methods", .arr [.obj [("method", .str "Foo"), ("number", .str "Foo"),
        ("request", .null), ("response", .null)]])], .okJson) ∧
    handleRequestList ⟨[⟨"Foo", 42, .null, .null⟩]⟩ "list" =
      some (.obj [("methods", .arr [.obj [("method", .str "Foo"), ("number", .str "Foo"),
        ("request", .null), ("response", .null)]])], .okJson) ∧
    Json.str "Foo" ≠ Json.num 42 :=
  ⟨rfl, rfl, fun h => Json.noConfusion h⟩

/-- C7 (amended): for every struct serializer and every well-formed binary
input — a canonical `t`-slot encoding in which every active recognized slot
holds its field codec's canonical encoding, every *removed* recognized slot
holds the single byte `0`, every trailing unknown slot holds a complete wire
element, and (when there is no unknown suffix) the written length is canonical
— decoding with the preserve flag and re-encoding through the same serializer
yields byte-for-byte identical output, including the trailing unknown slots.
The claim's unrestricted version fails when a removed slot holds a non-zero
value (old data): the encoder re-emits removed slots as the byte `0`.  The
preserved payload is re-emitted only when its token matches the owning
serializer's token: with a foreign token the encoder ignores the payload
entirely. -/
theorem c7_preserve_roundtrip_amended :
    (∀ (V : Type) [Inhabited V] (S : StructSerializer V) (v : Nat → V)
      (blocks : Nat → List Nat) (t : Nat) (H : List Nat),
      t < 4294967296 →
      lengthHeader t = some H →
      (∀ i c, S.slots i = some c → c.isDefault c.dflt = true) →
      (∀ i, i < t → i < S.recognizedSlots →
        (∀ c, S.slots i = some c → c.encode (v i) = some (blocks i) ∧
          ∀ rest, c.decode (blocks i ++ rest) = some (v i, rest)) ∧
        (S.slots i = none → blocks i = [0])) →
      (∀ i, i < t → S.recognizedSlots ≤ i → ConsumesExactly (blocks i)) →
      (t ≤ S.recognizedSlots → 0 < t →
        ∃ c, S.slots (t - 1) = some c ∧ c.isDefault (v (t - 1)) = false) →
      ∃ y, structDecode S true (H ++ joinRange blocks 0 t) = some (y, []) ∧
        structEncode S y = some (H ++ joinRange blocks 0 t)) ∧
    (∀ (V : Type) (S : StructSerializer V) (x : StructValue V) (u : UnrecognizedFields),
      x.unrecognized = some u → u.token ≠ S.token →
      structEncode S x = structEncode S ⟨x.fieldVal, none⟩) := by
  constructor
  · intro V inst S v blocks t H h32 hH hdef hblocks hunk hlast
    by_cases ht0 : t = 0
    · subst ht0
      rw [show lengthHeader 0 = some [246] from rfl] at hH
      cases hH
      refine ⟨defaultStruct S, ?_, ?_⟩
      · rw [show joinRange blocks 0 0 = [] from rfl, List.append_nil]
        rw [structDecode, if_pos (by omega)]
      · rw [show joinRange blocks 0 0 = [] from rfl, List.append_nil]
        exact structEncode_default S hdef
    · have h1 : 1 ≤ t := by omega
      obtain ⟨x1, hdec, hin, hout⟩ := structDecode_comp V S v blocks t H true h32 h1 hH
        (fun i hi1 hi2 => ⟨fun c hc => (hblocks i hi1 hi2).1 c hc |>.2,
          (hblocks i hi1 hi2).2⟩) hunk
      by_cases hby : S.recognizedSlots < t
      · rw [if_pos hby] at hdec
        rw [if_pos rfl] at hdec
        refine ⟨_, hdec, ?_⟩
        rw [structEncode]
        have hinfo : structEncodeInfo S
            ⟨x1, some ⟨S.token, t,
              some (joinRange blocks S.recognizedSlots (t - S.recognizedSlots))⟩⟩ =
            (t, S.recognizedSlots,
              joinRange blocks S.recognizedSlots (t - S.recognizedSlots)) := by
          rw [structEncodeInfo]
          simp only [if_true]
        rw [hinfo]
        simp only []
        rw [hH, Option.some_bind]
        have henc : encodeSlots S x1 0 S.recognizedSlots =
            some (joinRange blocks 0 S.recognizedSlots) := by
          refine encodeSlots_blocks S x1 blocks S.recognizedSlots 0 ?_
          intro j hj1 hj2
          refine ⟨fun c hc => ?_, fun hc => (hblocks j (by omega) (by omega)).2 hc⟩
          have hx1 : x1 j = v j := hin j (by omega) (by rw [hc]; rfl)
          rw [hx1]
          exact ((hblocks j (by omega) (by omega)).1 c hc).1
        rw [henc, Option.map_some']
        have hsplit : joinRange blocks 0 t = joinRange blocks 0 S.recognizedSlots ++
            joinRange blocks S.recognizedSlots (t - S.recognizedSlots) := by
          have h := joinRange_split blocks 0 S.recognizedSlots (t - S.recognizedSlots)
          rw [show S.recognizedSlots + (t - S.recognizedSlots) = t from by omega] at h
          simpa using h
        rw [hsplit, List.append_assoc]
      · rw [if_neg hby] at hdec
        refine ⟨_, hdec, ?_⟩
        rw [structEncode]
        have hmin : min t S.recognizedSlots = t := by omega
        have hga : getArrayLength S
            (⟨x1, none⟩ : StructValue V) = t := by
          rw [getArrayLength]
          simp only []
          refine getArrayLengthAux_eq S x1 t S.recognizedSlots (by omega) ?_ ?_
          · intro j c hj1 hj2 hc
            have hx1 : x1 j = dfltAt S j := hout j (by omega)
            rw [hx1, dfltAt, hc]
            exact hdef j c hc
          · intro h0
            obtain ⟨c, hc, hcd⟩ := hlast (by omega) h0
            refine ⟨c, hc, ?_⟩
            have hx1 : x1 (t - 1) = v (t - 1) :=
              hin (t - 1) (by omega) (by rw [hc]; rfl)
            rw [hx1]
            exact hcd
        have hinfo : structEncodeInfo S (⟨x1, none⟩ : StructValue V) = (t, t, []) := by
          rw [structEncodeInfo]
          simp only []
          rw [hga]
        rw [hinfo]
        simp only []
        rw [hH, Option.some_bind]
        have henc : encodeSlots S x1 0 t = some (joinRange blocks 0 t) := by
          refine encodeSlots_blocks S x1 blocks t 0 ?_
          intro j hj1 hj2
          refine ⟨fun c hc => ?_, fun hc => (hblocks j (by omega) (by omega)).2 hc⟩
          have hx1 : x1 j = v j := hin j (by omega) (by rw [hc]; rfl)
          rw [hx1]
          exact ((hblocks j (by omega) (by omega)).1 c hc).1
        rw [henc, Option.map_some', List.append_nil]
  · intro V S x u hu htok
    have hinfo : structEncodeInfo S x = structEncodeInfo S ⟨x.fieldVal, none⟩ := by
      rw [structEncodeInfo, structEncodeInfo, hu]
      simp only []
      match hbp : u.bytesPayload with
      | some payload =>
        simp only []
        rw [if_neg htok]
        rfl
      | none => rfl
    rw [structEncode, structEncode, hinfo]

/-- Counterexample for C7: the struct serializer with one int32 field numbered
0 and removed number 1 (`recognizedSlots = 2`).  The buffer `249 01 05 07` is
well-formed old data — the canonical encoding of the values `(1, 5, 7)`
written when slots 1 and 2 held active int32 fields.  Decoding it in preserve
mode and re-encoding yields `249 01 00 07`: the removed slot's value `5` is
re-encoded as the byte `0`, so the output is not byte-for-byte identical to
the input even though the trailing unknown slot `07` is preserved. -/
theorem c7_counterexample :
    (structDecode exampleRemovedStruct true [249, 1, 5, 7]).bind
      (fun p => structEncode exampleRemovedStruct p.1) = some [249, 1, 0, 7] ∧
    [249, 1, 0, 7] ≠ [249, 1, 5, 7] := ⟨rfl, by decide⟩

/-- Witness for C7: the amended round-trip applied to the one-field example
struct reading a 3-slot buffer with two trailing unknown int32 slots. -/
theorem c7_witness :
    ∃ y, structDecode exampleStruct true [249, 5, 11, 12] = some (y, []) ∧
      structEncode exampleStruct y = some [249, 5, 11, 12] := by
  have h := c7_preserve_roundtrip_amended.1 Int exampleStruct
    (fun i => [5, 11, 12].getD i 0)
    (fun i => int32Encode ([5, 11, 12].getD i 0)) 3 [249]
    (by omega) rfl ?hdef ?hblocks ?hunk ?hlast
  case hdef =>
    intro i c hc
    rw [exampleStruct] at hc
    simp only [] at hc
    by_cases h0 : i = 0
    · rw [if_pos h0] at hc
      cases hc
      rfl
    · rw [if_neg h0] at hc
      exact Option.noConfusion hc
  case hblocks =>
    intro i hi1 hi2
    have h0 : i = 0 := by
      rw [exampleStruct] at hi2
      simp only [] at hi2
      omega
    subst h0
    constructor
    · intro c hc
      rw [exampleStruct] at hc
      simp only [if_pos rfl] at hc
      cases hc
      exact ⟨rfl, fun rest => int32_roundtrip 5 (by omega) (by omega) rest⟩
    · intro hc
      rw [exampleStruct] at hc
      simp only [if_pos rfl] at hc
      exact Option.noConfusion hc
  case hunk =>
    intro i hi1 hi2
    exact consumesExactly_int32 _
  case hlast =>
    intro hle
    rw [exampleStruct] at hle
    simp only [] at hle
    omega
  have hb : ([249] : List Nat) ++
      joinRange (fun i => int32Encode ([5, 11, 12].getD i 0)) 0 3 = [249, 5, 11, 12] := rfl
  rw [hb] at h
  exact h

/-! ### Full binary round trips (claim C8) -/

theorem lengthHeader_some (t : Nat) (h32 : t < 4294967296) :
    ∃ H, lengthHeader t = some H := by
  rw [lengthHeader]
  by_cases h3 : t ≤ 3
  · exact ⟨_, by rw [if_pos h3]⟩
  · obtain ⟨e, he, _⟩ := encodeUint32_spec t h32
    exact ⟨_, by rw [if_neg h3, he, Option.map_some']⟩

/-- Every struct value without an unknown-fields payload survives a binary
round trip through its serializer, provided the field codecs canonically
round-trip the stored values and `isDefault` characterizes the codec
default. -/
theorem struct_encode_decode (V : Type) [Inhabited V] (S : StructSerializer V)
    (x : StructValue V) (keep : Bool)
    (hr32 : S.recognizedSlots < 4294967296)
    (hact : ∀ i c, S.slots i = some c → i < S.recognizedSlots)
    (_hdef : ∀ i c, S.slots i = some c → c.isDefault c.dflt = true)
    (hcodec : ∀ i c, S.slots i = some c → ∃ e, c.encode (x.fieldVal i) = some e ∧
      ∀ rest, c.decode (e ++ rest) = some (x.fieldVal i, rest))
    (huniq : ∀ i c, S.slots i = some c → c.isDefault (x.fieldVal i) = true →
      x.fieldVal i = c.dflt)
    (hx : x.unrecognized = none) :
    ∃ b y, structEncode S x = some b ∧ structDecode S keep b = some (y, []) ∧
      y.unrecognized = none ∧
      ∀ i c, S.slots i = some c → y.fieldVal i = x.fieldVal i := by
  set t := getArrayLength S x with ht
  have ht_le : t ≤ S.recognizedSlots := getArrayLengthAux_le S x.fieldVal S.recognizedSlots
  have hdefault_above : ∀ j c, t ≤ j → S.slots j = some c →
      c.isDefault (x.fieldVal j) = true := by
    intro j c hj hc
    exact getArrayLengthAux_default_above S x.fieldVal S.recognizedSlots j c hj
      (hact j c hc) hc
  obtain ⟨H, hH⟩ := lengthHeader_some t (by omega)
  have hinfo : structEncodeInfo S x = (t, t, []) := by
    rw [structEncodeInfo, hx]
  have hblocksOK : ∀ j, j < t →
      (∀ c, S.slots j = some c →
        c.encode (x.fieldVal j) =
          some ((fun i => match S.slots i with
            | some c => (c.encode (x.fieldVal i)).getD []
            | none => [0]) j)) ∧
      (S.slots j = none →
        (fun i => match S.slots i with
          | some c => (c.encode (x.fieldVal i)).getD []
          | none => [0]) j = [0]) := by
    intro j _
    constructor
    · intro c hc
      obtain ⟨e, he, _⟩ := hcodec j c hc
      simp only [hc, he]
      rfl
    · intro hc
      simp only [hc]
  have henc : structEncode S x =
      some (H ++ joinRange (fun i => match S.slots i with
        | some c => (c.encode (x.fieldVal i)).getD []
        | none => [0]) 0 t) := by
    rw [structEncode, hinfo]
    simp only []
    rw [hH, Option.some_bind]
    rw [encodeSlots_blocks S x.fieldVal _ t 0
      (fun j hj1 hj2 => hblocksOK j (by omega))]
    rw [Option.map_some', List.append_nil]
  by_cases ht0 : t = 0
  · refine ⟨H ++ joinRange _ 0 t, defaultStruct S, henc, ?_, rfl, ?_⟩
    · rw [ht0] at hH ⊢
      rw [show lengthHeader 0 = some [246] from rfl] at hH
      cases hH
      rw [show joinRange (fun i => match S.slots i with
        | some c => (c.encode (x.fieldVal i)).getD []
        | none => [0]) 0 0 = [] from rfl, List.append_nil]
      rw [structDecode, if_pos (by omega)]
    · intro i c hc
      have hd : c.isDefault (x.fieldVal i) = true :=
        hdefault_above i c (by omega) hc
      have := huniq i c hc hd
      rw [defaultStruct]
      simp only []
      rw [dfltAt, hc, this]
  · obtain ⟨x1, hdec, hin, hout⟩ := structDecode_comp V S x.fieldVal
      (fun i => match S.slots i with
        | some c => (c.encode (x.fieldVal i)).getD []
        | none => [0]) t H keep (by omega) (by omega) hH
      (fun i hi1 hi2 => ⟨fun c hc => by
        obtain ⟨e, he, hd⟩ := hcodec i c hc
        intro rest
        have hb : (fun i => match S.slots i with
          | some c => (c.encode (x.fieldVal i)).getD []
          | none => [0]) i = e := by simp only [hc, he]; rfl
        rw [hb]
        exact hd rest,
        fun hc => by simp only [hc]⟩)
      (fun i hi1 hi2 => absurd hi2 (by omega))
    rw [if_neg (by omega)] at hdec
    refine ⟨_, ⟨x1, none⟩, henc, hdec, rfl, ?_⟩
    intro i c hc
    have hir := hact i c hc
    by_cases hit : i < t
    · exact hin i (by omega) (by rw [hc]; rfl)
    · have h1 : x1 i = dfltAt S i := hout i (by intro hcc; omega)
      have hd : c.isDefault (x.fieldVal i) = true := hdefault_above i c (by omega) hc
      have h2 := huniq i c hc hd
      show x1 i = x.fieldVal i
      rw [h1, dfltAt, hc, h2]

theorem int32Encode_head (n : Int) :
    ∃ w tail, int32Encode n = w :: tail ∧ w ≠ 255 := by
  rw [int32Encode]
  by_cases hn : n < 0
  · rw [if_pos hn]
    by_cases h256 : -256 ≤ n
    · rw [if_pos h256]; exact ⟨235, _, rfl, by omega⟩
    · rw [if_neg h256]
      by_cases h65536 : -65536 ≤ n
      · rw [if_pos h65536]; exact ⟨236, _, rfl, by omega⟩
      · rw [if_neg h65536]; exact ⟨237, _, rfl, by omega⟩
  · rw [if_neg hn]
    by_cases h232 : n < 232
    · rw [if_pos h232, writeLE_toLE, pow8One]
      rw [show toLE 1 (n % 256).toNat = [(n % 256).toNat % 256] from rfl]
      exact ⟨(n % 256).toNat % 256, [], rfl, by omega⟩
    · rw [if_neg h232]
      by_cases h65536 : n < 65536
      · rw [if_pos h65536]; exact ⟨232, _, rfl, by omega⟩
      · rw [if_neg h65536]; exact ⟨233, _, rfl, by omega⟩

theorem optional_int32_roundtrip (x : Option Int)
    (hx : ∀ v, x = some v → -2147483648 ≤ v ∧ v ≤ 2147483647) (rest : List Nat) :
    ∃ e, optionalEncode int32EncodeO x = some e ∧
      optionalDecode int32Decode (e ++ rest) = some (x, rest) := by
  match x with
  | none =>
    refine ⟨[255], rfl, ?_⟩
    rw [List.cons_append, optionalDecode, if_pos rfl, List.nil_append]
  | some v =>
    obtain ⟨h1, h2⟩ := hx v rfl
    obtain ⟨w, tail, hcons, hw⟩ := int32Encode_head v
    refine ⟨int32Encode v, rfl, ?_⟩
    rw [hcons, List.cons_append, optionalDecode, if_neg hw, ← List.cons_append, ← hcons]
    rw [int32_roundtrip v h1 h2 rest, Option.map_some']

theorem encodeItems_int32 (l : List Int) :
    encodeItems int32EncodeO l = some ((l.map int32Encode).flatten) := by
  induction l with
  | nil => rfl
  | cons v t ih =>
    rw [encodeItems, int32EncodeO, Option.some_bind, ih, Option.map_some']
    simp

theorem decodeItems_int32 (l : List Int)
    (hrange : ∀ v ∈ l, -2147483648 ≤ v ∧ v ≤ 2147483647) (rest : List Nat) :
    decodeItems int32Decode l.length ((l.map int32Encode).flatten ++ rest) =
      some (l, rest) := by
  induction l with
  | nil => simp [decodeItems]
  | cons v t ih =>
    rw [List.map_cons, List.flatten_cons, List.length_cons, decodeItems, List.append_assoc]
    rw [int32_roundtrip v (hrange v (by simp)).1 (hrange v (by simp)).2, Option.some_bind]
    rw [ih (fun u hu => hrange u (by simp [hu])), Option.map_some']

theorem array_int32_roundtrip (l : List Int) (h32 : l.length < 4294967296)
    (hrange : ∀ v ∈ l, -2147483648 ≤ v ∧ v ≤ 2147483647) (rest : List Nat) :
    ∃ b, arrayEncode int32EncodeO l = some b ∧
      arrayDecode int32Decode (b ++ rest) = some (l, rest) := by
  obtain ⟨H, hH⟩ := lengthHeader_some l.length h32
  rw [arrayEncode, hH, Option.some_bind, encodeItems_int32, Option.map_some']
  refine ⟨_, rfl, ?_⟩
  by_cases h0 : l.length = 0
  · have hnil : l = [] := List.eq_nil_of_length_eq_zero h0
    subst hnil
    rw [List.length_nil] at hH
    rw [show lengthHeader 0 = some [246] from rfl] at hH
    cases hH
    simp [arrayDecode]
  · obtain ⟨w, tail, hcons, hw, hread⟩ := lengthHeader_read l.length H h32 (by omega) hH
    subst hcons
    rw [List.append_assoc, List.cons_append, arrayDecode, if_neg hw]
    rw [hread ((l.map int32Encode).flatten ++ rest), Option.some_bind]
    simp only []
    rw [if_neg (by omega)]
    rw [show ((l.length : Nat) : Int).toNat = l.length from by omega]
    exact decodeItems_int32 l hrange rest

/-- C8: for every embedded serializer `S` and every value `x` of its type,
`from_bytes(to_bytes(x)) = x`; every `to_bytes` result begins with the 4-byte
ASCII magic `"soia"` and `from_bytes` skips exactly 4 bytes before decoding. -/
theorem c8_bytes_roundtrip :
    (∀ (α : Type) (enc : α → List Nat) (x : α),
      (toBytesT enc x).take 4 = soiaMagic ∧ (toBytesT enc x).drop 4 = enc x) ∧
    (∀ (α : Type) (dec : List Nat → Option (α × List Nat)) (b : List Nat),
      fromBytesW dec b = (dec (b.drop 4)).map Prod.fst) ∧
    (∀ x : Bool, fromBytesW boolDecode (toBytesT boolEncode x) = some x) ∧
    (∀ n : Int, -2147483648 ≤ n → n ≤ 2147483647 →
      fromBytesW int32Decode (toBytesT int32Encode n) = some n) ∧
    (∀ n : Int, minInt64 ≤ n → n ≤ maxInt64 →
      fromBytesW decodeBigInt (toBytesT int64Encode n) = some n) ∧
    (∀ n : Int, 0 ≤ n → n ≤ maxUint64 →
      fromBytesW decodeBigInt (toBytesT uint64Encode n) = some n) ∧
    (∀ t : Timestamp, -8640000000000000 ≤ t.unixMillis →
      t.unixMillis ≤ 8640000000000000 →
      fromBytesW timestampDecode (toBytesT timestampEncode t) = some t) ∧
    (∀ l : List Nat, l.length < 4294967296 →
      ∃ b, toBytesO bytesEncode l = some b ∧ fromBytesW bytesDecode b = some l) ∧
    (∀ x : Option Int, (∀ v, x = some v → -2147483648 ≤ v ∧ v ≤ 2147483647) →
      ∃ b, toBytesO (optionalEncode int32EncodeO) x = some b ∧
        fromBytesW (optionalDecode int32Decode) b = some x) ∧
    (∀ l : List Int, l.length < 4294967296 →
      (∀ v ∈ l, -2147483648 ≤ v ∧ v ≤ 2147483647) →
      ∃ b, toBytesO (arrayEncode int32EncodeO) l = some b ∧
        fromBytesW (arrayDecode int32Decode) b = some l) ∧
    (∀ (V : Type) [Inhabited V] (S : StructSerializer V) (x : StructValue V)
      (keep : Bool),
      S.recognizedSlots < 4294967296 →
      (∀ i c, S.slots i = some c → i < S.recognizedSlots) →
      (∀ i c, S.slots i = some c → c.isDefault c.dflt = true) →
      (∀ i c, S.slots i = some c → ∃ e, c.encode (x.fieldVal i) = some e ∧
        ∀ rest, c.decode (e ++ rest) = some (x.fieldVal i, rest)) →
      (∀ i c, S.slots i = some c → c.isDefault (x.fieldVal i) = true →
        x.fieldVal i = c.dflt) →
      x.unrecognized = none →
      ∃ b y, toBytesO (structEncode S) x = some b ∧
        fromBytesW (structDecode S keep) b = some y ∧
        y.unrecognized = none ∧
        ∀ i c, S.slots i = some c → y.fieldVal i = x.fieldVal i) := by
  have hdrop : ∀ (e : List Nat), (soiaMagic ++ e).drop 4 = e := fun e =>
    List.drop_left' rfl
  refine ⟨?_, ?_, ?_, ?_, ?_, ?_, ?_, ?_, ?_, ?_, ?_⟩
  · intro α enc x
    exact ⟨List.take_left' rfl, hdrop (enc x)⟩
  · intro α dec b
    rfl
  · intro x
    rw [fromBytesW, toBytesT, hdrop]
    rw [← List.append_nil (boolEncode x), bool_roundtrip x [], Option.map_some']
  · intro n h1 h2
    rw [fromBytesW, toBytesT, hdrop]
    rw [← List.append_nil (int32Encode n), int32_roundtrip n h1 h2 [], Option.map_some']
  · intro n h1 h2
    rw [fromBytesW, toBytesT, hdrop]
    rw [← List.append_nil (int64Encode n), int64_roundtrip n h1 h2 [], Option.map_some']
  · intro n h1 h2
    rw [fromBytesW, toBytesT, hdrop]
    rw [← List.append_nil (uint64Encode n), uint64_roundtrip n h1 h2 [], Option.map_some']
  · intro t h1 h2
    rw [fromBytesW, toBytesT, hdrop]
    rw [← List.append_nil (timestampEncode t), timestamp_roundtrip t h1 h2 [],
      Option.map_some']
  · intro l h32
    obtain ⟨e, he, hdec⟩ := bytes_roundtrip l h32 []
    rw [List.append_nil] at hdec
    refine ⟨soiaMagic ++ e, by rw [toBytesO, he, Option.map_some'], ?_⟩
    rw [fromBytesW, hdrop, hdec, Option.map_some']
  · intro x hx
    obtain ⟨e, he, hdec⟩ := optional_int32_roundtrip x hx []
    rw [List.append_nil] at hdec
    refine ⟨soiaMagic ++ e, by rw [toBytesO, he, Option.map_some'], ?_⟩
    rw [fromBytesW, hdrop, hdec, Option.map_some']
  · intro l h32 hrange
    obtain ⟨e, he, hdec⟩ := array_int32_roundtrip l h32 hrange []
    rw [List.append_nil] at hdec
    refine ⟨soiaMagic ++ e, by rw [toBytesO, he, Option.map_some'], ?_⟩
    rw [fromBytesW, hdrop, hdec, Option.map_some']
  · intro V inst S x keep hr32 hact hdef hcodec huniq hx
    obtain ⟨b, y, henc, hdec, hunone, hfields⟩ :=
      struct_encode_decode V S x keep hr32 hact hdef hcodec huniq hx
    refine ⟨soiaMagic ++ b, y, by rw [toBytesO, henc, Option.map_some'], ?_, hunone,
      hfields⟩
    rw [fromBytesW, hdrop, hdec, Option.map_some']

/-- Witness for C8: binary round trips evaluated for concrete int32, int64,
optional, array, and struct values. -/
theorem c8_witness :
    fromBytesW int32Decode (toBytesT int32Encode 232) = some 232 ∧
    fromBytesW decodeBigInt (toBytesT int64Encode (-9223372036854775808)) =
      some (-9223372036854775808) ∧
    (∃ b, toBytesO (optionalEncode int32EncodeO) (some 7) = some b ∧
      fromBytesW (optionalDecode int32Decode) b = some (some 7)) ∧
    (∃ b, toBytesO (arrayEncode int32EncodeO) [10, 11, 12, 13] = some b ∧
      fromBytesW (arrayDecode int32Decode) b = some [10, 11, 12, 13]) ∧
    (∃ b y, toBytesO (structEncode exampleStruct)
        (⟨fun _ => 7, none⟩ : StructValue Int) = some b ∧
      fromBytesW (structDecode exampleStruct false) b = some y ∧
      y.unrecognized = none ∧
      ∀ i c, exampleStruct.slots i = some c → y.fieldVal i = 7) := by
  refine ⟨?_, ?_, ?_, ?_, ?_⟩
  · exact c8_bytes_roundtrip.2.2.2.1 232 (by omega) (by omega)
  · exact c8_bytes_roundtrip.2.2.2.2.1 (-9223372036854775808) (by decide) (by decide)
  · exact c8_bytes_roundtrip.2.2.2.2.2.2.2.2.1 (some 7)
      (fun v hv => by cases hv; exact ⟨by omega, by omega⟩)
  · refine c8_bytes_roundtrip.2.2.2.2.2.2.2.2.2.1 [10, 11, 12, 13] (by norm_num) ?_
    intro v hv
    simp at hv
    omega
  · refine c8_bytes_roundtrip.2.2.2.2.2.2.2.2.2.2 Int exampleStruct
      (⟨fun _ => 7, none⟩ : StructValue Int) false (by decide) ?_ ?_ ?_ ?_ rfl
    · intro i c h
      rw [exampleStruct] at h
      simp only [] at h
      by_cases h0 : i = 0
      · subst h0
        decide
      · rw [if_neg h0] at h
        exact Option.noConfusion h
    · intro i c h
      rw [exampleStruct] at h
      simp only [] at h
      by_cases h0 : i = 0
      · rw [if_pos h0] at h
        cases h
        rfl
      · rw [if_neg h0] at h
        exact Option.noConfusion h
    · intro i c h
      rw [exampleStruct] at h
      simp only [] at h
      by_cases h0 : i = 0
      · rw [if_pos h0] at h
        cases h
        exact ⟨int32Encode 7, rfl, fun rest => int32_roundtrip 7 (by omega) (by omega) rest⟩
      · rw [if_neg h0] at h
        exact Option.noConfusion h
    · intro i c h hd
      rw [exampleStruct] at h
      simp only [] at h
      by_cases h0 : i = 0
      · rw [if_pos h0] at h
        cases h
        simp [int32Codec] at hd
      · rw [if_neg h0] at h
        exact Option.noConfusion h

end Soia
